import Mathlib

set_option maxRecDepth 8000

/-!
Verification development for the openmprdb-client-cli repository.
The definitions below are a shallow embedding of the certificate trust
store, the signed-envelope verification policy, the signing-key cache and
the line-oriented record codec of the source (src/pgp.rs, src/api.rs,
src/command/mod.rs).  Rust strings are modelled as lists of characters,
machine integers as Nat, and the external sequoia/uuid primitives are
modelled by their documented behaviour on the formats the client emits.
-/

namespace OpenMPRDB

/-! Character-list model of Rust str / String. -/

abbrev Str := List Char

/-- Whitespace as str::trim removes it, restricted to the ASCII whitespace
characters that can occur in the client's line-oriented records. -/
def isWsp (c : Char) : Bool :=
  c == ' ' || c == '\t' || c == '\r' || c == '\n'

/-- Model of str::trim_start. -/
def trimLeft : Str → Str
  | [] => []
  | c :: cs => if isWsp c then trimLeft cs else c :: cs

/-- Model of str::trim_end. -/
def trimRight (s : Str) : Str :=
  (trimLeft s.reverse).reverse

/-- Model of str::trim (used on both field names and field values in
SubmitContent::read_from, src/api.rs lines 309-310). -/
def trim (s : Str) : Str :=
  trimRight (trimLeft s)

/-- Model of str::split_once: split at the first occurrence of sep. -/
def splitOnce (sep : Char) : Str → Option (Str × Str)
  | [] => none
  | c :: cs =>
    if c = sep then some ([], cs)
    else
      match splitOnce sep cs with
      | some (a, b) => some (c :: a, b)
      | none => none

/-- All pieces of a string cut at every newline (keeps a final empty piece,
like str::split over a single character). -/
def splitLines : Str → List Str
  | [] => [[]]
  | c :: cs =>
    if c = '\n' then [] :: splitLines cs
    else
      match splitLines cs with
      | l :: ls => (c :: l) :: ls
      | [] => [[c]]

/-- Drop one trailing carriage return, as str::lines does per line. -/
def stripCr (l : Str) : Str :=
  if l.getLast? = some '\r' then l.dropLast else l

/-- Model of str::lines: split at newlines, forget a final line terminator,
strip one trailing carriage return from each line. -/
def linesOf (s : Str) : List Str :=
  let ps := splitLines s
  let qs := if ps.getLast? = some ([] : Str) then ps.dropLast else ps
  qs.map stripCr

/-! Decimal and hexadecimal digit tables (ASCII, as u64::from_str and the
uuid crate read them). -/

def digitToChar : Nat → Char
  | 0 => '0' | 1 => '1' | 2 => '2' | 3 => '3' | 4 => '4'
  | 5 => '5' | 6 => '6' | 7 => '7' | 8 => '8' | _ => '9'

def charToDigit (c : Char) : Option Nat :=
  if c = '0' then some 0 else if c = '1' then some 1 else if c = '2' then some 2
  else if c = '3' then some 3 else if c = '4' then some 4 else if c = '5' then some 5
  else if c = '6' then some 6 else if c = '7' then some 7 else if c = '8' then some 8
  else if c = '9' then some 9 else none

def hexDigitToChar : Nat → Char
  | 0 => '0' | 1 => '1' | 2 => '2' | 3 => '3' | 4 => '4'
  | 5 => '5' | 6 => '6' | 7 => '7' | 8 => '8' | 9 => '9'
  | 10 => 'a' | 11 => 'b' | 12 => 'c' | 13 => 'd' | 14 => 'e' | _ => 'f'

def hexCharToDigit (c : Char) : Option Nat :=
  match charToDigit c with
  | some d => some d
  | none =>
    if c = 'a' || c = 'A' then some 10
    else if c = 'b' || c = 'B' then some 11
    else if c = 'c' || c = 'C' then some 12
    else if c = 'd' || c = 'D' then some 13
    else if c = 'e' || c = 'E' then some 14
    else if c = 'f' || c = 'F' then some 15
    else none

/-- Value of a big-endian digit list in base b. -/
def valBase (b : Nat) (ds : List Nat) : Nat :=
  ds.foldl (fun a d => a * b + d) 0

/-- Fold a digit string into a number; none as soon as one character is not
a digit of the base. -/
def parseBaseAux (toD : Char → Option Nat) (b : Nat) (acc : Nat) : Str → Option Nat
  | [] => some acc
  | c :: cs =>
    match toD c with
    | some d => parseBaseAux toD b (acc * b + d) cs
    | none => none

def parseDigitsAll (s : Str) : Option Nat := parseBaseAux charToDigit 10 0 s

def parseHexAll (s : Str) : Option Nat := parseBaseAux hexCharToDigit 16 0 s

/-- Big-endian decimal digits of n, with enough fuel (fuel > n suffices). -/
def natToDigitsAux : Nat → Nat → List Nat
  | 0, _ => []
  | fuel + 1, n => if n < 10 then [n] else natToDigitsAux fuel (n / 10) ++ [n % 10]

def natToDigits10 (n : Nat) : List Nat := natToDigitsAux (n + 1) n

/-- Decimal rendering of a Nat; models the Display of Rust's u64
(write_to prints self.timestamp with it). -/
def printNat (n : Nat) : Str := (natToDigits10 n).map digitToChar

/-- Strip one leading plus sign, as u64::from_str allows. -/
def stripPlus : Str → Str
  | [] => []
  | c :: cs => if c = '+' then cs else c :: cs

/-- Model of u64::from_str: optional sign, one or more ASCII decimal digits,
value within the u64 range. -/
def parseU64 (s : Str) : Option Nat :=
  let t := stripPlus s
  if t = [] then none
  else
    match parseDigitsAll t with
    | some v => if v < 2 ^ 64 then some v else none
    | none => none

/-- Exactly w big-endian base-16 digits of n (leading zeros kept). -/
def natToHexFixed : Nat → Nat → List Nat
  | 0, _ => []
  | w + 1, n => natToHexFixed w (n / 16) ++ [n % 16]

/-- The 32 lowercase hex characters of a 128-bit uuid value. -/
def printUuidHex (n : Nat) : Str := (natToHexFixed 32 n).map hexDigitToChar

/-- Hyphenated rendering of a uuid, 8-4-4-4-12; models the Display of
uuid::Uuid as write_to prints self.uuid and self.player_uuid. -/
def printUuid (n : Nat) : Str :=
  let h := printUuidHex n
  h.take 8 ++ '-' :: ((h.drop 8).take 4 ++ '-' :: (((h.drop 8).drop 4).take 4 ++ '-' ::
    ((((h.drop 8).drop 4).drop 4).take 4 ++ '-' :: (((h.drop 8).drop 4).drop 4).drop 4)))

/-- Model of uuid::Uuid::from_str on the canonical formats: 32 plain hex
characters, or five hyphen-separated hex groups of lengths 8-4-4-4-12,
case-insensitive. -/
def parseUuid (s : Str) : Option Nat :=
  if s.length = 32 then parseHexAll s
  else
    match splitOnce '-' s with
    | some (g1, r1) =>
      match splitOnce '-' r1 with
      | some (g2, r2) =>
        match splitOnce '-' r2 with
        | some (g3, r3) =>
          match splitOnce '-' r3 with
          | some (g4, g5) =>
            if g1.length = 8 ∧ g2.length = 4 ∧ g3.length = 4 ∧ g4.length = 4 ∧ g5.length = 12
            then parseHexAll (g1 ++ g2 ++ g3 ++ g4 ++ g5)
            else none
          | none => none
        | none => none
      | none => none
    | none => none

/-! The submit-record codec (SubmitContent in src/api.rs). The points field
is f32 in the source; its textual codec (Display / f32::from_str) is an
external primitive of the core library, modelled as a codec parameter. -/

structure Codec (F : Type) where
  print : F → Str
  parse : Str → Option F

/-- Stand-in for the f32 codec at integer-valued points: Rust renders such
floats as plain decimal digits (Display of 5.0f32 is the digit string 5),
which f32::from_str reads back. -/
def natCodec : Codec Nat :=
  ⟨printNat, fun s => if s = [] then none else parseDigitsAll s⟩

/-- The record fields of a submit record, for error reporting. -/
inductive FieldTag where
  | uuid
  | timestamp
  | player_uuid
  | points
  | comment
deriving DecidableEq

/-- Errors of SubmitContent::read_from: a known field whose value fails to
parse, or a required field that never appeared. -/
inductive ReadErr where
  | malformed (f : FieldTag)
  | missing (f : FieldTag)
deriving DecidableEq

/-- SubmitContent (src/api.rs lines 269-281), uuids and the u64 timestamp
as Nat, the f32 points field as the codec parameter's type. -/
structure SubmitContent (F : Type) where
  uuid : Nat
  timestamp : Nat
  player_uuid : Nat
  points : F
  comment : Str
deriving DecidableEq

/-! Field names as character lists. -/

def kUuid : Str := ['u', 'u', 'i', 'd']
def kTimestamp : Str := ['t', 'i', 'm', 'e', 's', 't', 'a', 'm', 'p']
def kPlayerUuid : Str := ['p', 'l', 'a', 'y', 'e', 'r', '_', 'u', 'u', 'i', 'd']
def kPoints : Str := ['p', 'o', 'i', 'n', 't', 's']
def kComment : Str := ['c', 'o', 'm', 'm', 'e', 'n', 't']

variable {F : Type}

/-- SubmitContent::write_to (src/api.rs lines 286-293): the five fields in
order, each as a name-colon-space-value line. -/
def write_to (cf : Codec F) (c : SubmitContent F) : Str :=
  kUuid ++ ':' :: ' ' :: printUuid c.uuid ++ '\n' ::
  (kTimestamp ++ ':' :: ' ' :: printNat c.timestamp ++ '\n' ::
  (kPlayerUuid ++ ':' :: ' ' :: printUuid c.player_uuid ++ '\n' ::
  (kPoints ++ ':' :: ' ' :: cf.print c.points ++ '\n' ::
  (kComment ++ ':' :: ' ' :: c.comment ++ ['\n']))))

/-- Interim parse state of read_from: the four Option temporaries and the
comment accumulator, initially empty. -/
structure ReadSt (F : Type) where
  tmp_uuid : Option Nat
  tmp_timestamp : Option Nat
  tmp_player_uuid : Option Nat
  tmp_points : Option F
  comment : Str
deriving DecidableEq

def initSt : ReadSt F := ⟨none, none, none, none, []⟩

/-- The match on the trimmed key in read_from's loop body
(src/api.rs lines 311-318). -/
def procKV (cf : Codec F) (st : ReadSt F) (key value : Str) : Except ReadErr (ReadSt F) :=
  if key = kUuid then
    match parseUuid value with
    | some u => Except.ok { st with tmp_uuid := some u }
    | none => Except.error (ReadErr.malformed FieldTag.uuid)
  else if key = kTimestamp then
    match parseU64 value with
    | some t => Except.ok { st with tmp_timestamp := some t }
    | none => Except.error (ReadErr.malformed FieldTag.timestamp)
  else if key = kPlayerUuid then
    match parseUuid value with
    | some u => Except.ok { st with tmp_player_uuid := some u }
    | none => Except.error (ReadErr.malformed FieldTag.player_uuid)
  else if key = kPoints then
    match cf.parse value with
    | some p => Except.ok { st with tmp_points := some p }
    | none => Except.error (ReadErr.malformed FieldTag.points)
  else if key = kComment then Except.ok { st with comment := value }
  else Except.ok st

/-- One loop iteration of read_from (src/api.rs lines 307-320): split the
line at the first colon, trim name and value, dispatch on the name; a line
without a colon is skipped. -/
def procLine (cf : Codec F) (st : ReadSt F) (s : Str) : Except ReadErr (ReadSt F) :=
  match splitOnce ':' s with
  | some kv => procKV cf st (trim kv.1) (trim kv.2)
  | none => Except.ok st

/-- The whole line loop, stopping at the first parse error. -/
def runLines (cf : Codec F) : ReadSt F → List Str → Except ReadErr (ReadSt F)
  | st, [] => Except.ok st
  | st, l :: rest =>
    match procLine cf st l with
    | Except.ok st2 => runLines cf st2 rest
    | Except.error e => Except.error e

/-- SubmitContent::read_from (src/api.rs lines 299-330): run the line loop
over str::lines of the input, then require the four non-comment fields,
in the source's check order; the comment defaults to the empty string. -/
def read_from (cf : Codec F) (input : Str) : Except ReadErr (SubmitContent F) :=
  match runLines cf initSt (linesOf input) with
  | Except.error e => Except.error e
  | Except.ok st =>
    match st.tmp_uuid with
    | none => Except.error (ReadErr.missing FieldTag.uuid)
    | some u =>
      match st.tmp_timestamp with
      | none => Except.error (ReadErr.missing FieldTag.timestamp)
      | some t =>
        match st.tmp_player_uuid with
        | none => Except.error (ReadErr.missing FieldTag.player_uuid)
        | some pu =>
          match st.tmp_points with
          | none => Except.error (ReadErr.missing FieldTag.points)
          | some p => Except.ok ⟨u, t, pu, p, st.comment⟩

/-! Model of the verification policy of VerifyHelper::check
(src/pgp.rs lines 425-457). A signature layer carries the list of
per-signature verification results; any other layer kind (compression,
encryption) is collapsed into one constructor, since check treats every
non-signature layer alike. -/

/-- One VerificationResult of a signature group: mathematically good, or a
verification error. -/
inductive SigResult where
  | good
  | bad
deriving DecidableEq

inductive MsgLayer where
  | signatureGroup (results : List SigResult)
  | other
deriving DecidableEq

/-- The anyhow errors check can produce, one constructor per error site:
the unexpected-structure rejection, the no-signature rejection, a
propagated per-signature verification error, and the final
good-flag-false failure. -/
inductive CheckErr where
  | unexpectedStructure
  | noSignature
  | propagated
  | verificationFailed
deriving DecidableEq

/-- The enumerate loop of check: layer index, good flag, remaining layers.
At index 0 a signature group inspects only the FIRST result of the group
(results.into_iter().next()); every other (index, layer) pair returns the
unexpected-structure error. -/
def checkGo : Nat → Bool → List MsgLayer → Except CheckErr Bool
  | _, good, [] => Except.ok good
  | 0, _, MsgLayer.signatureGroup results :: rest =>
    (match results with
     | SigResult.good :: _ => checkGo 1 true rest
     | SigResult.bad :: _ => Except.error CheckErr.propagated
     | [] => Except.error CheckErr.noSignature)
  | 0, _, MsgLayer.other :: _ => Except.error CheckErr.unexpectedStructure
  | _ + 1, _, _ :: _ => Except.error CheckErr.unexpectedStructure

/-- VerifyHelper::check on a parsed message structure. -/
def check (ls : List MsgLayer) : Except CheckErr Unit :=
  match checkGo 0 false ls with
  | Except.ok true => Except.ok ()
  | Except.ok false => Except.error CheckErr.verificationFailed
  | Except.error e => Except.error e

/-! Model of the certificate trust store (CertificationManager,
src/pgp.rs lines 573-727). Fingerprints, key ids and key fingerprints are
Nat; the pluggable policy is folded into each key's supported flag, and
wall-clock instants are Nat timestamps. -/

/-- Secret key material of a key: encrypted behind a passphrase (with the
degenerate unencrypted-algorithm marker the source skips), or stored in
the clear. -/
inductive SecretMat where
  | encrypted (algoUnencrypted : Bool) (passwd : Nat) (material : Nat)
  | unencrypted (material : Nat)
deriving DecidableEq

/-- One key of a certificate with the validity data the source's filter
chain consults. -/
structure KeyInfo where
  keyid : Nat
  fpr : Nat
  creation : Nat
  expiry : Nat
  revoked : Bool
  signing : Bool
  supported : Bool
  secret : Option SecretMat
deriving DecidableEq

/-- A certificate: its fingerprint and its keys. -/
structure Cert where
  fingerprint : Nat
  keys : List KeyInfo
deriving DecidableEq

/-- The filter chain keys().with_policy(p, t).alive().revoked(false)
.for_signing().supported() applied to one key at timestamp t: the key
exists and is alive at t, is not revoked, certifies signing, and its
algorithm passes the policy (folded into supported). -/
def validAt (k : KeyInfo) (t : Nat) : Bool :=
  decide (k.creation ≤ t) && decide (t < k.expiry) && !k.revoked && k.signing && k.supported

/-! Association-list model of the HashMap key-id index: keys unique,
insert replaces, remove deletes. -/

def lookupKV (kid : Nat) (idx : List (Nat × Nat)) : Option Nat :=
  match idx.find? (fun p => p.1 == kid) with
  | some p => some p.2
  | none => none

def eraseKV (kid : Nat) (idx : List (Nat × Nat)) : List (Nat × Nat) :=
  idx.filter (fun p => !(p.1 == kid))

def insertKV (kid fp : Nat) (idx : List (Nat × Nat)) : List (Nat × Nat) :=
  (kid, fp) :: eraseKV kid idx

/-- Index every key of the list that is valid at t, mapping its key id to
the owning certificate's fingerprint (the indexs.insert loop of new/add). -/
def indexAdd (keys : List KeyInfo) (t fp : Nat) (idx : List (Nat × Nat)) : List (Nat × Nat) :=
  keys.foldl (fun m k => if validAt k t then insertKV k.keyid fp m else m) idx

/-- Drop the index entry of every key of the list that is valid at t
(the indexs.remove loop of CertificationManager::remove). -/
def indexDrop (keys : List KeyInfo) (t : Nat) (idx : List (Nat × Nat)) : List (Nat × Nat) :=
  keys.foldl (fun m k => if validAt k t then eraseKV k.keyid m else m) idx

/-- Membership of a fingerprint in the certificate set (CertWrap equality
is by fingerprint, src/pgp.rs lines 573-595). -/
def containsFp (certs : List Cert) (fp : Nat) : Bool :=
  certs.any (fun c => c.fingerprint == fp)

def countFp (certs : List Cert) (fp : Nat) : Nat :=
  certs.countP (fun c => c.fingerprint == fp)

/-- CertificationManager state: the certificate set, the key-id index,
the dirty flag, and the construction timestamp. -/
structure CertificationManager where
  certs : List Cert
  indexs : List (Nat × Nat)
  changed : Bool
  timestamp : Nat
deriving DecidableEq

/-- CertificationManager::new (src/pgp.rs lines 608-654) over the already
parsed certificate list of the keyring file (a missing file parses to the
empty list). Per certificate: insert into the set; on a fresh insert index
its valid keys at the construction timestamp; then the dirty flag is
REASSIGNED to the negation of this iteration's insert result. -/
def CertificationManager.new (file : List Cert) (t : Nat) : CertificationManager :=
  file.foldl
    (fun m cert =>
      if containsFp m.certs cert.fingerprint then { m with changed := true }
      else
        { m with
          certs := m.certs ++ [cert],
          indexs := indexAdd cert.keys t cert.fingerprint m.indexs,
          changed := false })
    ⟨[], [], false, t⟩

/-- CertificationManager::add (src/pgp.rs lines 664-683): no-op returning
false when the fingerprint is present; otherwise insert, index the keys
valid at the CALL-TIME clock (SystemTime::now()), and set the dirty flag. -/
def CertificationManager.add (m : CertificationManager) (cert : Cert) (now : Nat) :
    Bool × CertificationManager :=
  if containsFp m.certs cert.fingerprint then (false, m)
  else
    (true,
     { m with
       certs := m.certs ++ [cert],
       indexs := indexAdd cert.keys now cert.fingerprint m.indexs,
       changed := true })

/-- CertificationManager::remove (src/pgp.rs lines 685-703): remove the
certificate by fingerprint; when one was removed, drop the index entries
of the argument's keys valid at the CONSTRUCTION timestamp
(self.timestamp), and set the dirty flag. -/
def CertificationManager.remove (m : CertificationManager) (cert : Cert) :
    Bool × CertificationManager :=
  if containsFp m.certs cert.fingerprint then
    (true,
     { m with
       certs := m.certs.filter (fun c => !(c.fingerprint == cert.fingerprint)),
       indexs := indexDrop cert.keys m.timestamp m.indexs,
       changed := true })
  else (false, m)

/-- CertificationManager::get (src/pgp.rs lines 705-710): index lookup then
Weak::upgrade; the upgrade is modelled as succeeding exactly when the
store's own strong reference is still present, i.e. the owning certificate
is still in the set. -/
def CertificationManager.get (m : CertificationManager) (kid : Nat) : Option Cert :=
  match lookupKV kid m.indexs with
  | some fp => m.certs.find? (fun c => c.fingerprint == fp)
  | none => none

/-- A claimed signer handle of an inbound envelope (sequoia KeyHandle). -/
inductive KeyHandle where
  | keyId (kid : Nat)
  | fingerprint (fp : Nat)
deriving DecidableEq

/-- Resolution of one claimed handle in VerifyHelper::get_certs
(src/pgp.rs lines 391-423): a key id goes through the store index; a full
fingerprint scans the store for a certificate owning a matching key that
is valid under the store's policy at the store's timestamp. -/
def resolveOne (m : CertificationManager) (h : KeyHandle) : Option Cert :=
  match h with
  | KeyHandle.keyId kid => m.get kid
  | KeyHandle.fingerprint fp =>
    m.certs.find? (fun c => c.keys.any (fun k => validAt k m.timestamp && k.fpr == fp))

/-- The one error get_certs produces: an unresolved signer. -/
inductive VerifyErr where
  | certNotFound
deriving DecidableEq

/-- VerifyHelper::get_certs over the claimed handles, in order, failing the
whole call at the first handle that resolves to no certificate. -/
def get_certs (m : CertificationManager) : List KeyHandle → Except VerifyErr (List Cert)
  | [] => Except.ok []
  | h :: rest =>
    match resolveOne m h with
    | some c =>
      (match get_certs m rest with
       | Except.ok cs => Except.ok (c :: cs)
       | Except.error e => Except.error e)
    | none => Except.error VerifyErr.certNotFound

/-! Model of signing-key resolution and its cache
(get_signing_key, src/pgp.rs lines 294-324, and
SigningKeyPairGenerator::generate, src/command/mod.rs lines 35-67).
The PasswordProvider collaborator is a function from the certificate and
key fingerprints to the passphrase it supplies. -/

structure KeyPair where
  keyid : Nat
  material : Nat
deriving DecidableEq

inductive SignErr where
  | noSuitableKey
  | passwordIncorrect
deriving DecidableEq

/-- The key scan of get_signing_key: first key that passes the validity
filter and matches the wanted key id and carries secret material; an
encrypted secret claiming the unencrypted algorithm is skipped; a genuinely
encrypted secret costs one PasswordProvider invocation (counted in the
second component) and fails when the provided passphrase is wrong. -/
def signKeyScan (certFp t kid : Nat) (pw : Nat → Nat → Nat) :
    List KeyInfo → Except SignErr KeyPair × Nat
  | [] => (Except.error SignErr.noSuitableKey, 0)
  | k :: rest =>
    if validAt k t && (k.keyid == kid) then
      match k.secret with
      | some (SecretMat.encrypted algoUnenc passwd mat) =>
        if algoUnenc then signKeyScan certFp t kid pw rest
        else if pw certFp k.fpr == passwd then (Except.ok ⟨k.keyid, mat⟩, 1)
        else (Except.error SignErr.passwordIncorrect, 1)
      | some (SecretMat.unencrypted mat) => (Except.ok ⟨k.keyid, mat⟩, 0)
      | none => signKeyScan certFp t kid pw rest
    else signKeyScan certFp t kid pw rest

def get_signing_key (cert : Cert) (t kid : Nat) (pw : Nat → Nat → Nat) :
    Except SignErr KeyPair × Nat :=
  signKeyScan cert.fingerprint t kid pw cert.keys

/-- The single-slot cache of SigningKeyPairGenerator. -/
structure SigningKeyPairGenerator where
  cache : Option (Nat × KeyPair)
deriving DecidableEq

/-- SigningKeyPairGenerator::generate: a cached pair under the SAME key id
is returned without resolving; any other key id re-resolves and, on
success, replaces the single cache slot; an error leaves the cache as it
was. The third component counts PasswordProvider invocations. -/
def SigningKeyPairGenerator.generate (g : SigningKeyPairGenerator) (cert : Cert)
    (kid t : Nat) (pw : Nat → Nat → Nat) :
    Except SignErr KeyPair × SigningKeyPairGenerator × Nat :=
  match g.cache with
  | some (ck, kp) =>
    if ck == kid then (Except.ok kp, g, 0)
    else
      (match get_signing_key cert t kid pw with
       | (Except.ok kp2, n) => (Except.ok kp2, ⟨some (kid, kp2)⟩, n)
       | (Except.error e, n) => (Except.error e, g, n))
  | none =>
    (match get_signing_key cert t kid pw with
     | (Except.ok kp2, n) => (Except.ok kp2, ⟨some (kid, kp2)⟩, n)
     | (Except.error e, n) => (Except.error e, g, n))

/-! Concrete instances used by counterexamples and witnesses. -/

/-- A record whose comment carries leading whitespace. -/
def c2cexIn : SubmitContent Nat := ⟨1, 1000, 2, 5, [' ', 'x']⟩

/-- What decoding its encoding actually returns: the comment trimmed. -/
def c2cexOut : SubmitContent Nat := ⟨1, 1000, 2, 5, ['x']⟩

/-- A well-behaved record (trim-invariant, newline-free comment). -/
def c2wit : SubmitContent Nat :=
  ⟨0x11111111111111111111111111111111, 1000,
   0x22222222222222222222222222222222, 5,
   ['c', 'h', 'e', 'a', 't', 'i', 'n', 'g']⟩

/-- A four-line submit body with no comment line. -/
def c9inp : Str :=
  kUuid ++ ':' :: ' ' :: printUuid 1 ++ '\n' ::
  (kTimestamp ++ ':' :: ' ' :: printNat 1000 ++ '\n' ::
  (kPlayerUuid ++ ':' :: ' ' :: printUuid 2 ++ '\n' ::
  (kPoints ++ ':' :: ' ' :: printNat 5 ++ ['\n'])))

/-- A certificate whose only signing key is created at time 20, after the
store's construction timestamp 10 used below. -/
def certStale : Cert := ⟨1, [⟨5, 100, 20, 100, false, true, true, none⟩]⟩

/-- Store constructed (empty) at time 10, with certStale added at time 30
when its key is alive. -/
def c4mgr : CertificationManager :=
  ((CertificationManager.new [] 10).add certStale 30).2

/-- The same store after removing certStale again. -/
def c4after : CertificationManager := (c4mgr.remove certStale).2

def certA : Cert := ⟨1, []⟩
def certB : Cert := ⟨2, []⟩

/-- Two certificates with distinct encrypted signing keys, and a provider
returning each key's correct passphrase. -/
def c6cert1 : Cert := ⟨1, [⟨1, 101, 0, 100, false, true, true,
  some (SecretMat.encrypted false 11 201)⟩]⟩
def c6cert2 : Cert := ⟨2, [⟨2, 102, 0, 100, false, true, true,
  some (SecretMat.encrypted false 22 202)⟩]⟩
def c6pw : Nat → Nat → Nat := fun _ kf => if kf = 101 then 11 else 22

def c6g0 : SigningKeyPairGenerator := ⟨none⟩
def c6g1 : SigningKeyPairGenerator := (c6g0.generate c6cert1 1 50 c6pw).2.1
def c6g2 : SigningKeyPairGenerator := (c6g1.generate c6cert2 2 50 c6pw).2.1

/-- Whether a line's trimmed field name is the comment field (the only
branch of read_from that writes the comment accumulator). -/
def lineKeyIsComment (l : Str) : Bool :=
  match splitOnce ':' l with
  | some kv => decide (trim kv.1 = kComment)
  | none => false

/-! Lemmas about the trimming functions. -/

theorem trimLeft_length_le (s : Str) : (trimLeft s).length ≤ s.length := by
  induction s with
  | nil => exact Nat.le_refl 0
  | cons c cs ih =>
    cases h : isWsp c with
    | true =>
      rw [trimLeft, if_pos h]
      exact Nat.le_trans ih (Nat.le_succ _)
    | false =>
      rw [trimLeft, if_neg (by simp [h])]

theorem trimLeft_eq_of_length (s : Str) (h : (trimLeft s).length = s.length) :
    trimLeft s = s := by
  induction s with
  | nil => rfl
  | cons c cs ih =>
    cases hw : isWsp c with
    | true =>
      rw [trimLeft, if_pos hw] at h
      have := trimLeft_length_le cs
      simp only [List.length_cons] at h
      omega
    | false => rw [trimLeft, if_neg (by simp [hw])]

theorem trimLeft_head_not_wsp (s : Str) (hs : trimLeft s = s) (c : Char)
    (hc : s.head? = some c) : isWsp c = false := by
  cases s with
  | nil => exact absurd hc (by simp)
  | cons a as =>
    have hac : a = c := by simpa using hc
    subst hac
    cases hw : isWsp a with
    | true =>
      rw [trimLeft, if_pos hw] at hs
      have h1 := trimLeft_length_le as
      have h2 := congrArg List.length hs
      simp only [List.length_cons] at h2
      omega
    | false => rfl

theorem trimRight_length_le (s : Str) : (trimRight s).length ≤ s.length := by
  unfold trimRight
  rw [List.length_reverse]
  calc (trimLeft s.reverse).length ≤ s.reverse.length := trimLeft_length_le _
    _ = s.length := List.length_reverse s

theorem trim_eq_self_left (s : Str) (h : trim s = s) : trimLeft s = s := by
  have h1 : s.length ≤ (trimLeft s).length := by
    have h2 := congrArg List.length h
    unfold trim at h2
    have h3 := trimRight_length_le (trimLeft s)
    omega
  exact trimLeft_eq_of_length s (Nat.le_antisymm (trimLeft_length_le s) h1)

theorem trim_eq_self_right (s : Str) (h : trim s = s) : trimRight s = s := by
  have hl := trim_eq_self_left s h
  unfold trim at h
  rw [hl] at h
  exact h

theorem getLast_not_wsp_of_trim (s : Str) (h : trim s = s) (c : Char)
    (hc : s.getLast? = some c) : isWsp c = false := by
  have hr := trim_eq_self_right s h
  have h2 : trimLeft s.reverse = s.reverse := by
    have h3 := congrArg List.reverse hr
    unfold trimRight at h3
    rwa [List.reverse_reverse] at h3
  have h4 : s.reverse.head? = some c := by rw [List.head?_reverse]; exact hc
  exact trimLeft_head_not_wsp _ h2 c h4

theorem trimLeft_idem (s : Str) : trimLeft (trimLeft s) = trimLeft s := by
  induction s with
  | nil => rfl
  | cons c cs ih =>
    cases hw : isWsp c with
    | true => rw [trimLeft, if_pos hw]; exact ih
    | false =>
      rw [trimLeft, if_neg (by simp [hw]), trimLeft, if_neg (by simp [hw])]

theorem trimLeft_concat_shape (xs : Str) (y : Char) :
    trimLeft (xs ++ [y]) = [] ∨ ∃ zs, trimLeft (xs ++ [y]) = zs ++ [y] := by
  induction xs with
  | nil =>
    cases hw : isWsp y with
    | true => left; simp [trimLeft, hw]
    | false => right; exact ⟨[], by simp [trimLeft, hw]⟩
  | cons x xs ih =>
    cases hw : isWsp x with
    | true => simpa [trimLeft, hw] using ih
    | false =>
      right
      exact ⟨x :: xs, by simp [trimLeft, hw]⟩

theorem trimRight_cons_shape (c : Char) (cs : Str) :
    trimRight (c :: cs) = [] ∨ ∃ ds, trimRight (c :: cs) = c :: ds := by
  unfold trimRight
  rw [List.reverse_cons]
  rcases trimLeft_concat_shape cs.reverse c with h | ⟨zs, h⟩
  · left; rw [h]; rfl
  · right; exact ⟨zs.reverse, by rw [h]; simp⟩

theorem trimLeft_trimRight_self (s : Str) (h : trimLeft s = s) :
    trimLeft (trimRight s) = trimRight s := by
  cases s with
  | nil => rfl
  | cons c cs =>
    have hc : isWsp c = false := trimLeft_head_not_wsp _ h c rfl
    rcases trimRight_cons_shape c cs with h2 | ⟨ds, h2⟩
    · rw [h2]; rfl
    · rw [h2, trimLeft, if_neg (by simp [hc])]

theorem trimRight_idem (s : Str) : trimRight (trimRight s) = trimRight s := by
  show trimRight ((trimLeft s.reverse).reverse) = trimRight s
  unfold trimRight
  rw [List.reverse_reverse, trimLeft_idem]

theorem trim_idem (s : Str) : trim (trim s) = trim s := by
  show trimRight (trimLeft (trimRight (trimLeft s))) = trimRight (trimLeft s)
  rw [trimLeft_trimRight_self (trimLeft s) (trimLeft_idem s), trimRight_idem]

theorem trimLeft_append_wsp (w s : Str) (h : ∀ c ∈ w, isWsp c = true) :
    trimLeft (w ++ s) = trimLeft s := by
  induction w with
  | nil => rfl
  | cons c cs ih =>
    have hc : isWsp c = true := h c (by simp)
    rw [List.cons_append, trimLeft, if_pos hc]
    exact ih (fun d hd => h d (by simp [hd]))

theorem trimLeft_eq_nil_of_wsp (w : Str) (h : ∀ c ∈ w, isWsp c = true) :
    trimLeft w = [] := by
  have h2 := trimLeft_append_wsp w [] h
  simpa using h2

theorem trimLeft_of_no_wsp (s : Str) (h : ∀ c ∈ s, isWsp c = false) :
    trimLeft s = s := by
  induction s with
  | nil => rfl
  | cons c cs ih =>
    rw [trimLeft, if_neg (by simp [h c (by simp)])]

theorem trimRight_of_no_wsp (s : Str) (h : ∀ c ∈ s, isWsp c = false) :
    trimRight s = s := by
  unfold trimRight
  rw [trimLeft_of_no_wsp s.reverse (fun c hc => h c (List.mem_reverse.mp hc)),
    List.reverse_reverse]

theorem trim_of_no_wsp (s : Str) (h : ∀ c ∈ s, isWsp c = false) : trim s = s := by
  unfold trim
  rw [trimLeft_of_no_wsp s h, trimRight_of_no_wsp s h]

theorem trim_cons_wsp (c : Char) (s : Str) (h : isWsp c = true) :
    trim (c :: s) = trim s := by
  unfold trim
  rw [trimLeft, if_pos h]

theorem trimLeft_append_cases (s t : Str) :
    trimLeft (s ++ t) = if trimLeft s = [] then trimLeft t else trimLeft s ++ t := by
  induction s with
  | nil => simp [trimLeft]
  | cons c cs ih =>
    cases hw : isWsp c with
    | true => simpa [trimLeft, hw] using ih
    | false => simp [trimLeft, hw]

theorem trimRight_append_wsp (s w : Str) (h : ∀ c ∈ w, isWsp c = true) :
    trimRight (s ++ w) = trimRight s := by
  unfold trimRight
  rw [List.reverse_append,
    trimLeft_append_wsp w.reverse s.reverse (fun c hc => h c (List.mem_reverse.mp hc))]

theorem trim_append_wsp_left (w s : Str) (h : ∀ c ∈ w, isWsp c = true) :
    trim (w ++ s) = trim s := by
  unfold trim
  rw [trimLeft_append_wsp w s h]

theorem trim_append_wsp_right (s w : Str) (h : ∀ c ∈ w, isWsp c = true) :
    trim (s ++ w) = trim s := by
  unfold trim
  rw [trimLeft_append_cases]
  by_cases h0 : trimLeft s = []
  · rw [if_pos h0, h0, trimLeft_eq_nil_of_wsp w h]
  · rw [if_neg h0, trimRight_append_wsp _ w h]

theorem trim_pad (w1 w2 x : Str) (h1 : ∀ c ∈ w1, isWsp c = true)
    (h2 : ∀ c ∈ w2, isWsp c = true) : trim (w1 ++ (x ++ w2)) = trim x := by
  rw [trim_append_wsp_left w1 _ h1, trim_append_wsp_right x w2 h2]

/-! Lemmas about splitting. -/

theorem splitOnce_append (sep : Char) (a b : Str) (h : sep ∉ a) :
    splitOnce sep (a ++ sep :: b) = some (a, b) := by
  induction a with
  | nil => simp [splitOnce]
  | cons c cs ih =>
    have hc : ¬ c = sep := fun he => h (by simp [he])
    rw [List.cons_append, splitOnce, if_neg hc, ih (fun hm => h (by simp [hm]))]

theorem splitLines_ne_nil (s : Str) : splitLines s ≠ [] := by
  induction s with
  | nil => simp [splitLines]
  | cons c cs ih =>
    by_cases hc : c = '\n'
    · simp [splitLines, hc]
    · cases h : splitLines cs with
      | nil => exact absurd h ih
      | cons l ls => simp [splitLines, hc, h]

theorem splitLines_append (a rest : Str) (h : '\n' ∉ a) :
    splitLines (a ++ '\n' :: rest) = a :: splitLines rest := by
  induction a with
  | nil => simp [splitLines]
  | cons c cs ih =>
    have hc : ¬ c = '\n' := fun he => h (by simp [he])
    have ih2 := ih (fun hm => h (by simp [hm]))
    rw [List.cons_append, splitLines, if_neg hc, ih2]

theorem getLast_append_cons (xs : Str) (c : Char) (ys : Str) :
    (xs ++ c :: ys).getLast? = (c :: ys).getLast? := by
  induction xs with
  | nil => rfl
  | cons x xs ih =>
    cases hxx : xs ++ c :: ys with
    | nil => exact absurd (List.append_eq_nil.mp hxx).2 (by simp)
    | cons z zs =>
      rw [List.cons_append, hxx, List.getLast?_cons_cons, ← hxx, ih]

theorem getLast_cons_ne_none (c : Char) (cs : Str) : (c :: cs).getLast? ≠ none := by
  induction cs generalizing c with
  | nil => simp
  | cons d ds ih => rw [List.getLast?_cons_cons]; exact ih d

theorem linesOf_cons_line (l rest : Str) (h : '\n' ∉ l) :
    linesOf (l ++ '\n' :: rest) = stripCr l :: linesOf rest := by
  unfold linesOf
  rw [splitLines_append l rest h]
  cases hsp : splitLines rest with
  | nil => exact absurd hsp (splitLines_ne_nil rest)
  | cons p ps =>
    simp only
    rw [List.getLast?_cons_cons]
    by_cases he : (p :: ps).getLast? = some ([] : Str)
    · rw [if_pos he, if_pos he]
      rfl
    · rw [if_neg he, if_neg he]
      rfl

theorem stripCr_space_payload (A p : Str) (hp : trim p = p) :
    stripCr (A ++ ' ' :: p) = A ++ ' ' :: p := by
  unfold stripCr
  cases p with
  | nil =>
    rw [getLast_append_cons]
    exact if_neg (by decide)
  | cons q qs =>
    rw [getLast_append_cons, List.getLast?_cons_cons]
    cases hL : (q :: qs).getLast? with
    | none => exact absurd hL (getLast_cons_ne_none q qs)
    | some c =>
      have hcw : isWsp c = false := getLast_not_wsp_of_trim _ hp c hL
      have hcr : ¬ (some c = some '\r') := by
        intro hcontra
        have : c = '\r' := by injection hcontra
        rw [this] at hcw
        exact absurd hcw (by decide)
      exact if_neg hcr

theorem newline_not_mem_line (key payload : Str) (hk : '\n' ∉ key)
    (hp : '\n' ∉ payload) : '\n' ∉ key ++ ':' :: ' ' :: payload := by
  intro h
  rcases List.mem_append.mp h with h1 | h2
  · exact hk h1
  · rcases List.mem_cons.mp h2 with h3 | h4
    · exact absurd h3 (by decide)
    · rcases List.mem_cons.mp h4 with h5 | h6
      · exact absurd h5 (by decide)
      · exact hp h6

/-! Digit-table round trips. -/

theorem charToDigit_digitToChar (d : Nat) (h : d < 10) :
    charToDigit (digitToChar d) = some d := by
  interval_cases d <;> rfl

theorem hexCharToDigit_hexDigitToChar (d : Nat) (h : d < 16) :
    hexCharToDigit (hexDigitToChar d) = some d := by
  interval_cases d <;> rfl

theorem digitToChar_not_wsp (d : Nat) (h : d < 10) : isWsp (digitToChar d) = false := by
  interval_cases d <;> rfl

theorem hexDigitToChar_not_wsp (d : Nat) (h : d < 16) :
    isWsp (hexDigitToChar d) = false := by
  interval_cases d <;> rfl

theorem digitToChar_ne_plus (d : Nat) (h : d < 10) : digitToChar d ≠ '+' := by
  interval_cases d <;> decide

theorem hexDigitToChar_ne_hyphen (d : Nat) (h : d < 16) : hexDigitToChar d ≠ '-' := by
  interval_cases d <;> decide

theorem natToDigitsAux_lt (fuel n : Nat) : ∀ d ∈ natToDigitsAux fuel n, d < 10 := by
  induction fuel generalizing n with
  | zero => intro d hd; exact absurd hd (by simp [natToDigitsAux])
  | succ fuel ih =>
    intro d hd
    by_cases h10 : n < 10
    · rw [natToDigitsAux, if_pos h10] at hd
      have : d = n := by simpa using hd
      omega
    · rw [natToDigitsAux, if_neg h10] at hd
      rcases List.mem_append.mp hd with h1 | h2
      · exact ih (n / 10) d h1
      · have : d = n % 10 := by simpa using h2
        rw [this]
        exact Nat.mod_lt _ (by omega)

theorem natToHexFixed_lt (w n : Nat) : ∀ d ∈ natToHexFixed w n, d < 16 := by
  induction w generalizing n with
  | zero => intro d hd; exact absurd hd (by simp [natToHexFixed])
  | succ w ih =>
    intro d hd
    rw [natToHexFixed] at hd
    rcases List.mem_append.mp hd with h1 | h2
    · exact ih (n / 16) d h1
    · have : d = n % 16 := by simpa using h2
      rw [this]
      exact Nat.mod_lt _ (by omega)

theorem valBase_append (b : Nat) (xs : List Nat) (d : Nat) :
    valBase b (xs ++ [d]) = valBase b xs * b + d := by
  unfold valBase
  rw [List.foldl_append]
  rfl

theorem natToDigitsAux_val (fuel : Nat) : ∀ n, n < fuel →
    valBase 10 (natToDigitsAux fuel n) = n := by
  induction fuel with
  | zero => intro n h; omega
  | succ fuel ih =>
    intro n h
    by_cases h10 : n < 10
    · rw [natToDigitsAux, if_pos h10]
      show 0 * 10 + n = n
      omega
    · have hdiv : n / 10 < n := Nat.div_lt_self (by omega) (by omega)
      rw [natToDigitsAux, if_neg h10, valBase_append, ih (n / 10) (by omega)]
      omega

theorem natToHexFixed_val (w : Nat) : ∀ n, n < 16 ^ w →
    valBase 16 (natToHexFixed w n) = n := by
  induction w with
  | zero =>
    intro n h
    have : n = 0 := by simpa using h
    rw [this]
    rfl
  | succ w ih =>
    intro n h
    have hdiv : n / 16 < 16 ^ w := by
      rw [Nat.div_lt_iff_lt_mul (by omega)]
      calc n < 16 ^ (w + 1) := h
        _ = 16 ^ w * 16 := by rw [pow_succ]
    rw [natToHexFixed, valBase_append, ih (n / 16) hdiv]
    omega

theorem natToHexFixed_length (w n : Nat) : (natToHexFixed w n).length = w := by
  induction w generalizing n with
  | zero => rfl
  | succ w ih => simp [natToHexFixed, ih]

theorem parseBaseAux_map (toD : Char → Option Nat) (toC : Nat → Char) (b : Nat)
    (ds : List Nat) (h : ∀ d ∈ ds, toD (toC d) = some d) :
    ∀ acc, parseBaseAux toD b acc (ds.map toC) =
      some (ds.foldl (fun a d => a * b + d) acc) := by
  induction ds with
  | nil => intro acc; rfl
  | cons d ds ih =>
    intro acc
    rw [List.map_cons, parseBaseAux, h d (by simp)]
    exact ih (fun e he => h e (by simp [he])) _

theorem parseDigitsAll_printNat (n : Nat) : parseDigitsAll (printNat n) = some n := by
  unfold parseDigitsAll printNat natToDigits10
  rw [parseBaseAux_map charToDigit digitToChar 10 _
    (fun d hd => charToDigit_digitToChar d (natToDigitsAux_lt _ _ d hd)) 0]
  rw [show (natToDigitsAux (n + 1) n).foldl (fun a d => a * 10 + d) 0 =
    valBase 10 (natToDigitsAux (n + 1) n) from rfl]
  rw [natToDigitsAux_val (n + 1) n (Nat.lt_succ_self n)]

theorem natToDigits10_ne_nil (n : Nat) : natToDigits10 n ≠ [] := by
  by_cases h : n < 10 <;> simp [natToDigits10, natToDigitsAux, h]

theorem printNat_not_wsp (n : Nat) : ∀ c ∈ printNat n, isWsp c = false := by
  intro c hc
  simp only [printNat, natToDigits10, List.mem_map] at hc
  obtain ⟨d, hd, he⟩ := hc
  rw [← he]
  exact digitToChar_not_wsp d (natToDigitsAux_lt _ _ d hd)

theorem parseU64_printNat (n : Nat) (h : n < 2 ^ 64) :
    parseU64 (printNat n) = some n := by
  have h1 : stripPlus (printNat n) = printNat n := by
    cases hp : printNat n with
    | nil => rfl
    | cons c cs =>
      have hc : c ∈ printNat n := by rw [hp]; exact List.mem_cons_self c cs
      simp only [printNat, natToDigits10, List.mem_map] at hc
      obtain ⟨d, hd, he⟩ := hc
      have : ¬ c = '+' := by
        rw [← he]
        exact digitToChar_ne_plus d (natToDigitsAux_lt _ _ d hd)
      rw [stripPlus, if_neg this]
  have h2 : ¬ printNat n = [] := by
    simp only [printNat, natToDigits10, List.map_eq_nil_iff]
    exact natToDigits10_ne_nil n
  simp only [parseU64, h1, if_neg h2, parseDigitsAll_printNat n, if_pos h]

theorem printUuidHex_length (n : Nat) : (printUuidHex n).length = 32 := by
  simp [printUuidHex, natToHexFixed_length]

theorem printUuidHex_not_wsp (n : Nat) : ∀ c ∈ printUuidHex n, isWsp c = false := by
  intro c hc
  simp only [printUuidHex, List.mem_map] at hc
  obtain ⟨d, hd, he⟩ := hc
  rw [← he]
  exact hexDigitToChar_not_wsp d (natToHexFixed_lt _ _ d hd)

theorem hyphen_not_mem_printUuidHex (n : Nat) : '-' ∉ printUuidHex n := by
  intro h
  simp only [printUuidHex, List.mem_map] at h
  obtain ⟨d, hd, he⟩ := h
  exact hexDigitToChar_ne_hyphen d (natToHexFixed_lt _ _ d hd) he

theorem parseHexAll_printUuidHex (n : Nat) (h : n < 16 ^ 32) :
    parseHexAll (printUuidHex n) = some n := by
  unfold parseHexAll printUuidHex
  rw [parseBaseAux_map hexCharToDigit hexDigitToChar 16 _
    (fun d hd => hexCharToDigit_hexDigitToChar d (natToHexFixed_lt _ _ d hd)) 0]
  rw [show (natToHexFixed 32 n).foldl (fun a d => a * 16 + d) 0 =
    valBase 16 (natToHexFixed 32 n) from rfl]
  rw [natToHexFixed_val 32 n h]

theorem parseUuid_printUuid (n : Nat) (h : n < 16 ^ 32) :
    parseUuid (printUuid n) = some n := by
  have hlen := printUuidHex_length n
  have heq : printUuid n =
      (printUuidHex n).take 8 ++ '-' :: (((printUuidHex n).drop 8).take 4 ++ '-' ::
        ((((printUuidHex n).drop 8).drop 4).take 4 ++ '-' ::
          (((((printUuidHex n).drop 8).drop 4).drop 4).take 4 ++ '-' ::
            ((((printUuidHex n).drop 8).drop 4).drop 4).drop 4))) := rfl
  have hnm : ∀ x : Str, x ⊆ printUuidHex n → '-' ∉ x :=
    fun x hsub hm => hyphen_not_mem_printUuidHex n (hsub hm)
  have ha : '-' ∉ (printUuidHex n).take 8 := hnm _ (List.take_subset _ _)
  have hb : '-' ∉ ((printUuidHex n).drop 8).take 4 :=
    hnm _ (List.Subset.trans (List.take_subset _ _) (List.drop_subset _ _))
  have hc : '-' ∉ (((printUuidHex n).drop 8).drop 4).take 4 :=
    hnm _ (List.Subset.trans (List.take_subset _ _)
      (List.Subset.trans (List.drop_subset _ _) (List.drop_subset _ _)))
  have hd : '-' ∉ ((((printUuidHex n).drop 8).drop 4).drop 4).take 4 :=
    hnm _ (List.Subset.trans (List.take_subset _ _)
      (List.Subset.trans (List.drop_subset _ _)
        (List.Subset.trans (List.drop_subset _ _) (List.drop_subset _ _))))
  have la : ((printUuidHex n).take 8).length = 8 := by
    rw [List.length_take, hlen]
    decide
  have lr1 : ((printUuidHex n).drop 8).length = 24 := by
    rw [List.length_drop, hlen]
  have lb : (((printUuidHex n).drop 8).take 4).length = 4 := by
    rw [List.length_take, lr1]
    decide
  have lr2 : (((printUuidHex n).drop 8).drop 4).length = 20 := by
    rw [List.length_drop, lr1]
  have lc : ((((printUuidHex n).drop 8).drop 4).take 4).length = 4 := by
    rw [List.length_take, lr2]
    decide
  have lr3 : ((((printUuidHex n).drop 8).drop 4).drop 4).length = 16 := by
    rw [List.length_drop, lr2]
  have ld : (((((printUuidHex n).drop 8).drop 4).drop 4).take 4).length = 4 := by
    rw [List.length_take, lr3]
    decide
  have le : (((((printUuidHex n).drop 8).drop 4).drop 4).drop 4).length = 12 := by
    rw [List.length_drop, lr3]
  have hfull : (printUuid n).length = 36 := by
    rw [heq]
    simp only [List.length_append, List.length_cons, la, lb, lc, ld, le]
  rw [heq] at hfull ⊢
  unfold parseUuid
  rw [if_neg (by omega)]
  simp only [splitOnce_append '-' _ _ ha, splitOnce_append '-' _ _ hb,
    splitOnce_append '-' _ _ hc, splitOnce_append '-' _ _ hd]
  rw [if_pos ⟨la, lb, lc, ld, le⟩]
  simp only [List.append_assoc, List.take_append_drop]
  exact parseHexAll_printUuidHex n h

theorem printUuid_mem (n : Nat) (c : Char) (hc : c ∈ printUuid n) :
    c = '-' ∨ c ∈ printUuidHex n := by
  have heq : c ∈ (printUuidHex n).take 8 ++ '-' :: (((printUuidHex n).drop 8).take 4 ++ '-' ::
      ((((printUuidHex n).drop 8).drop 4).take 4 ++ '-' ::
        (((((printUuidHex n).drop 8).drop 4).drop 4).take 4 ++ '-' ::
          ((((printUuidHex n).drop 8).drop 4).drop 4).drop 4))) := hc
  have tk : ∀ (x : List Char) (m : Nat), c ∈ x.take m → c ∈ x :=
    fun x m hm => List.take_subset m x hm
  have dp : ∀ (x : List Char) (m : Nat), c ∈ x.drop m → c ∈ x :=
    fun x m hm => List.drop_subset m x hm
  rcases List.mem_append.mp heq with h1 | h2
  · exact Or.inr (tk _ _ h1)
  rcases List.mem_cons.mp h2 with h3 | h4
  · exact Or.inl h3
  rcases List.mem_append.mp h4 with h1 | h2
  · exact Or.inr (dp _ _ (tk _ _ h1))
  rcases List.mem_cons.mp h2 with h3 | h4
  · exact Or.inl h3
  rcases List.mem_append.mp h4 with h1 | h2
  · exact Or.inr (dp _ _ (dp _ _ (tk _ _ h1)))
  rcases List.mem_cons.mp h2 with h3 | h4
  · exact Or.inl h3
  rcases List.mem_append.mp h4 with h1 | h2
  · exact Or.inr (dp _ _ (dp _ _ (dp _ _ (tk _ _ h1))))
  rcases List.mem_cons.mp h2 with h3 | h4
  · exact Or.inl h3
  · exact Or.inr (dp _ _ (dp _ _ (dp _ _ (dp _ _ h4))))

theorem printUuid_not_wsp (n : Nat) : ∀ c ∈ printUuid n, isWsp c = false := by
  intro c hc
  rcases printUuid_mem n c hc with rfl | h
  · rfl
  · exact printUuidHex_not_wsp n c h

theorem not_newline_mem_of_no_wsp (s : Str) (h : ∀ c ∈ s, isWsp c = false) :
    '\n' ∉ s := by
  intro hm
  have := h '\n' hm
  exact absurd this (by decide)

/-! Evaluation lemmas for the read_from loop body. -/

theorem procLine_split (cf : Codec F) (st : ReadSt F) (a b : Str) (h : ':' ∉ a) :
    procLine cf st (a ++ ':' :: b) = procKV cf st (trim a) (trim b) := by
  unfold procLine
  rw [splitOnce_append ':' a b h]

theorem procKV_at_uuid (cf : Codec F) (st : ReadSt F) (v : Str) (u : Nat)
    (hp : parseUuid v = some u) :
    procKV cf st kUuid v = Except.ok { st with tmp_uuid := some u } := by
  unfold procKV
  rw [if_pos rfl, hp]

theorem procKV_at_timestamp (cf : Codec F) (st : ReadSt F) (v : Str) (t : Nat)
    (hp : parseU64 v = some t) :
    procKV cf st kTimestamp v = Except.ok { st with tmp_timestamp := some t } := by
  unfold procKV
  rw [if_neg (by decide), if_pos rfl, hp]

theorem procKV_at_player (cf : Codec F) (st : ReadSt F) (v : Str) (u : Nat)
    (hp : parseUuid v = some u) :
    procKV cf st kPlayerUuid v = Except.ok { st with tmp_player_uuid := some u } := by
  unfold procKV
  rw [if_neg (by decide), if_neg (by decide), if_pos rfl, hp]

theorem procKV_at_points (cf : Codec F) (st : ReadSt F) (v : Str) (p : F)
    (hp : cf.parse v = some p) :
    procKV cf st kPoints v = Except.ok { st with tmp_points := some p } := by
  unfold procKV
  rw [if_neg (by decide), if_neg (by decide), if_neg (by decide), if_pos rfl, hp]

theorem procKV_at_comment (cf : Codec F) (st : ReadSt F) (v : Str) :
    procKV cf st kComment v = Except.ok { st with comment := v } := by
  unfold procKV
  rw [if_neg (by decide), if_neg (by decide), if_neg (by decide), if_neg (by decide),
    if_pos rfl]

/-- Claim C2 (amended): decoding inverts encoding for every record whose
comment and rendered points value are newline-free and carry no leading or
trailing whitespace, and whose points value round-trips through the
points codec. -/
theorem c2_roundtrip (F : Type) (cf : Codec F) (c : SubmitContent F)
    (hu : c.uuid < 16 ^ 32) (hpu : c.player_uuid < 16 ^ 32) (ht : c.timestamp < 2 ^ 64)
    (hfp : cf.parse (cf.print c.points) = some c.points)
    (hft : trim (cf.print c.points) = cf.print c.points)
    (hfn : '\n' ∉ cf.print c.points)
    (hct : trim c.comment = c.comment)
    (hcn : '\n' ∉ c.comment) :
    read_from cf (write_to cf c) = Except.ok c := by
  obtain ⟨u, t, p, f, cm⟩ := c
  simp only at hu hpu ht hfp hft hfn hct hcn
  have hw : write_to cf ⟨u, t, p, f, cm⟩ =
      (kUuid ++ ':' :: ' ' :: printUuid u) ++ '\n' ::
      ((kTimestamp ++ ':' :: ' ' :: printNat t) ++ '\n' ::
      ((kPlayerUuid ++ ':' :: ' ' :: printUuid p) ++ '\n' ::
      ((kPoints ++ ':' :: ' ' :: cf.print f) ++ '\n' ::
      ((kComment ++ ':' :: ' ' :: cm) ++ '\n' :: ([] : Str))))) := by
    simp [write_to, List.append_assoc]
  have h1n : '\n' ∉ kUuid ++ ':' :: ' ' :: printUuid u :=
    newline_not_mem_line _ _ (by decide) (not_newline_mem_of_no_wsp _ (printUuid_not_wsp u))
  have h2n : '\n' ∉ kTimestamp ++ ':' :: ' ' :: printNat t :=
    newline_not_mem_line _ _ (by decide) (not_newline_mem_of_no_wsp _ (printNat_not_wsp t))
  have h3n : '\n' ∉ kPlayerUuid ++ ':' :: ' ' :: printUuid p :=
    newline_not_mem_line _ _ (by decide) (not_newline_mem_of_no_wsp _ (printUuid_not_wsp p))
  have h4n : '\n' ∉ kPoints ++ ':' :: ' ' :: cf.print f :=
    newline_not_mem_line _ _ (by decide) hfn
  have h5n : '\n' ∉ kComment ++ ':' :: ' ' :: cm :=
    newline_not_mem_line _ _ (by decide) hcn
  have hs1 : stripCr (kUuid ++ ':' :: ' ' :: printUuid u) = kUuid ++ ':' :: ' ' :: printUuid u := by
    rw [show kUuid ++ ':' :: ' ' :: printUuid u = (kUuid ++ [':']) ++ ' ' :: printUuid u by simp]
    exact stripCr_space_payload _ _ (trim_of_no_wsp _ (printUuid_not_wsp u))
  have hs2 : stripCr (kTimestamp ++ ':' :: ' ' :: printNat t) = kTimestamp ++ ':' :: ' ' :: printNat t := by
    rw [show kTimestamp ++ ':' :: ' ' :: printNat t = (kTimestamp ++ [':']) ++ ' ' :: printNat t by simp]
    exact stripCr_space_payload _ _ (trim_of_no_wsp _ (printNat_not_wsp t))
  have hs3 : stripCr (kPlayerUuid ++ ':' :: ' ' :: printUuid p) = kPlayerUuid ++ ':' :: ' ' :: printUuid p := by
    rw [show kPlayerUuid ++ ':' :: ' ' :: printUuid p = (kPlayerUuid ++ [':']) ++ ' ' :: printUuid p by simp]
    exact stripCr_space_payload _ _ (trim_of_no_wsp _ (printUuid_not_wsp p))
  have hs4 : stripCr (kPoints ++ ':' :: ' ' :: cf.print f) = kPoints ++ ':' :: ' ' :: cf.print f := by
    rw [show kPoints ++ ':' :: ' ' :: cf.print f = (kPoints ++ [':']) ++ ' ' :: cf.print f by simp]
    exact stripCr_space_payload _ _ hft
  have hs5 : stripCr (kComment ++ ':' :: ' ' :: cm) = kComment ++ ':' :: ' ' :: cm := by
    rw [show kComment ++ ':' :: ' ' :: cm = (kComment ++ [':']) ++ ' ' :: cm by simp]
    exact stripCr_space_payload _ _ hct
  have hl : linesOf (write_to cf ⟨u, t, p, f, cm⟩) =
      [kUuid ++ ':' :: ' ' :: printUuid u,
       kTimestamp ++ ':' :: ' ' :: printNat t,
       kPlayerUuid ++ ':' :: ' ' :: printUuid p,
       kPoints ++ ':' :: ' ' :: cf.print f,
       kComment ++ ':' :: ' ' :: cm] := by
    rw [hw, linesOf_cons_line _ _ h1n, linesOf_cons_line _ _ h2n,
      linesOf_cons_line _ _ h3n, linesOf_cons_line _ _ h4n, linesOf_cons_line _ _ h5n,
      hs1, hs2, hs3, hs4, hs5]
    rfl
  have hwsp : isWsp ' ' = true := by decide
  have hp1 : procLine cf initSt (kUuid ++ ':' :: ' ' :: printUuid u) =
      Except.ok (⟨some u, none, none, none, []⟩ : ReadSt F) := by
    rw [procLine_split cf _ kUuid (' ' :: printUuid u) (by decide)]
    rw [show trim kUuid = kUuid from rfl,
      trim_cons_wsp _ _ hwsp, trim_of_no_wsp _ (printUuid_not_wsp u)]
    exact procKV_at_uuid cf _ _ u (parseUuid_printUuid u hu)
  have hp2 : procLine cf (⟨some u, none, none, none, []⟩ : ReadSt F)
      (kTimestamp ++ ':' :: ' ' :: printNat t) =
      Except.ok (⟨some u, some t, none, none, []⟩ : ReadSt F) := by
    rw [procLine_split cf _ kTimestamp (' ' :: printNat t) (by decide)]
    rw [show trim kTimestamp = kTimestamp from rfl,
      trim_cons_wsp _ _ hwsp, trim_of_no_wsp _ (printNat_not_wsp t)]
    exact procKV_at_timestamp cf _ _ t (parseU64_printNat t ht)
  have hp3 : procLine cf (⟨some u, some t, none, none, []⟩ : ReadSt F)
      (kPlayerUuid ++ ':' :: ' ' :: printUuid p) =
      Except.ok (⟨some u, some t, some p, none, []⟩ : ReadSt F) := by
    rw [procLine_split cf _ kPlayerUuid (' ' :: printUuid p) (by decide)]
    rw [show trim kPlayerUuid = kPlayerUuid from rfl,
      trim_cons_wsp _ _ hwsp, trim_of_no_wsp _ (printUuid_not_wsp p)]
    exact procKV_at_player cf _ _ p (parseUuid_printUuid p hpu)
  have hp4 : procLine cf (⟨some u, some t, some p, none, []⟩ : ReadSt F)
      (kPoints ++ ':' :: ' ' :: cf.print f) =
      Except.ok (⟨some u, some t, some p, some f, []⟩ : ReadSt F) := by
    rw [procLine_split cf _ kPoints (' ' :: cf.print f) (by decide)]
    rw [show trim kPoints = kPoints from rfl, trim_cons_wsp _ _ hwsp, hft]
    exact procKV_at_points cf _ _ f hfp
  have hp5 : procLine cf (⟨some u, some t, some p, some f, []⟩ : ReadSt F)
      (kComment ++ ':' :: ' ' :: cm) =
      Except.ok (⟨some u, some t, some p, some f, cm⟩ : ReadSt F) := by
    rw [procLine_split cf _ kComment (' ' :: cm) (by decide)]
    rw [show trim kComment = kComment from rfl, trim_cons_wsp _ _ hwsp, hct]
    exact procKV_at_comment cf _ _
  have hrun : runLines cf initSt (linesOf (write_to cf ⟨u, t, p, f, cm⟩)) =
      Except.ok (⟨some u, some t, some p, some f, cm⟩ : ReadSt F) := by
    rw [hl]
    simp only [runLines, hp1, hp2, hp3, hp4, hp5]
  unfold read_from
  rw [hrun]

/-- Claim C2 counterexample: a record whose comment has leading whitespace
decodes from its own encoding to a record with the comment trimmed, not to
itself. -/
theorem c2_counterexample :
    read_from natCodec (write_to natCodec c2cexIn) = Except.ok c2cexOut ∧
    c2cexOut ≠ c2cexIn ∧
    read_from natCodec (write_to natCodec c2cexIn) ≠ Except.ok c2cexIn := by
  refine ⟨rfl, by decide, ?_⟩
  intro h
  rw [show read_from natCodec (write_to natCodec c2cexIn) = Except.ok c2cexOut from rfl] at h
  simp only [Except.ok.injEq] at h
  exact absurd h (by decide)

/-- Claim C2 witness: the amended round trip at a concrete record. -/
theorem c2_roundtrip_witness :
    read_from natCodec (write_to natCodec c2wit) = Except.ok c2wit :=
  c2_roundtrip Nat natCodec c2wit (by decide) (by decide) (by decide)
    (by rfl) (by rfl) (by decide) (by rfl) (by decide)

/-! Claims C1 and C3: the verification policy of VerifyHelper::check. -/

/-- Claim C1 (amended): within the single signature layer only the FIRST
verification result decides: the envelope is accepted iff the first listed
signature verifies; a failing first signature propagates its error even if
a later co-signature is valid; an empty signature group is NoSignature. -/
theorem c1_first_signature (rs : List SigResult) :
    check [MsgLayer.signatureGroup rs] =
      (match rs with
       | [] => Except.error CheckErr.noSignature
       | SigResult.good :: _ => Except.ok ()
       | SigResult.bad :: _ => Except.error CheckErr.propagated) := by
  cases rs with
  | nil => rfl
  | cons r rest => cases r <;> rfl

/-- Claim C1 counterexample: a layer holding one invalid signature followed
by one valid co-signature is NOT accepted: check propagates the error of
the first result. -/
theorem c1_counterexample :
    check [MsgLayer.signatureGroup [SigResult.bad, SigResult.good]] =
      Except.error CheckErr.propagated ∧
    check [MsgLayer.signatureGroup [SigResult.bad, SigResult.good]] ≠ Except.ok () :=
  ⟨rfl, fun h => Except.noConfusion h⟩

/-- Claim C3 (amended): verification accepts only an envelope that is
exactly one signature group over the body; zero layers fail with the
generic verification failure (not NoSignature), a non-signature first
layer or a second layer is rejected as unexpected structure, and an empty
signature group yields NoSignature. -/
theorem c3_structure :
    (∀ ls : List MsgLayer, check ls = Except.ok () →
      ∃ rs, ls = [MsgLayer.signatureGroup rs]) ∧
    check ([] : List MsgLayer) = Except.error CheckErr.verificationFailed ∧
    (∀ rest : List MsgLayer,
      check (MsgLayer.other :: rest) = Except.error CheckErr.unexpectedStructure) ∧
    (∀ (rs : List SigResult) (l : MsgLayer) (rest : List MsgLayer),
      check (MsgLayer.signatureGroup (SigResult.good :: rs) :: l :: rest) =
        Except.error CheckErr.unexpectedStructure) ∧
    (∀ rest : List MsgLayer,
      check (MsgLayer.signatureGroup [] :: rest) = Except.error CheckErr.noSignature) := by
  refine ⟨?_, rfl, fun rest => rfl, fun rs l rest => rfl, fun rest => rfl⟩
  intro ls h
  cases ls with
  | nil => exact absurd h (by intro h2; exact Except.noConfusion h2)
  | cons l1 rest =>
    cases l1 with
    | other => exact absurd h (by intro h2; exact Except.noConfusion h2)
    | signatureGroup rs =>
      cases rest with
      | nil => exact ⟨rs, rfl⟩
      | cons l2 rest2 =>
        cases rs with
        | nil => exact absurd h (by intro h2; exact Except.noConfusion h2)
        | cons r rtl =>
          cases r with
          | good => exact absurd h (by intro h2; exact Except.noConfusion h2)
          | bad => exact absurd h (by intro h2; exact Except.noConfusion h2)

/-- Claim C3 witness: the accepted shape at a concrete envelope. -/
theorem c3_structure_witness :
    ∃ rs, ([MsgLayer.signatureGroup [SigResult.good]] : List MsgLayer) =
      [MsgLayer.signatureGroup rs] :=
  c3_structure.1 [MsgLayer.signatureGroup [SigResult.good]] rfl

/-- Claim C3 counterexample: an envelope with zero signature layers is
rejected with the generic verification failure, not with NoSignature and
not with the structure rejection the claim names. -/
theorem c3_counterexample :
    check ([] : List MsgLayer) = Except.error CheckErr.verificationFailed ∧
    CheckErr.verificationFailed ≠ CheckErr.noSignature ∧
    CheckErr.verificationFailed ≠ CheckErr.unexpectedStructure :=
  ⟨rfl, by decide, by decide⟩

/-! Lemmas about the association-list index. -/

theorem lookupKV_insert_self (kid fp : Nat) (idx : List (Nat × Nat)) :
    lookupKV kid (insertKV kid fp idx) = some fp := by
  unfold lookupKV insertKV
  rw [List.find?_cons_of_pos _ (by simp)]

theorem lookupKV_erase_self (kid : Nat) (idx : List (Nat × Nat)) :
    lookupKV kid (eraseKV kid idx) = none := by
  unfold lookupKV eraseKV
  rw [List.find?_eq_none.mpr]
  intro x hx
  have h2 := (List.mem_filter.mp hx).2
  simp only [Bool.not_eq_true', beq_eq_false_iff_ne, ne_eq] at h2
  simp [h2]

theorem find?_filter_ne (kid kid2 : Nat) (idx : List (Nat × Nat)) (h : ¬ kid = kid2) :
    (idx.filter (fun p => !(p.1 == kid2))).find? (fun p => p.1 == kid) =
      idx.find? (fun p => p.1 == kid) := by
  induction idx with
  | nil => rfl
  | cons q qs ih =>
    rw [List.filter_cons]
    by_cases hq : q.1 = kid2
    · rw [if_neg (by simp [hq]), ih,
        List.find?_cons_of_neg _ (by simp [hq]; exact fun hh => h hh.symm)]
    · rw [if_pos (by simp [hq])]
      by_cases hqk : q.1 = kid
      · rw [List.find?_cons_of_pos _ (by simp [hqk]),
          List.find?_cons_of_pos _ (by simp [hqk])]
      · rw [List.find?_cons_of_neg _ (by simp [hqk]),
          List.find?_cons_of_neg _ (by simp [hqk])]
        exact ih

theorem lookupKV_erase_other (kid kid2 : Nat) (idx : List (Nat × Nat))
    (h : ¬ kid = kid2) : lookupKV kid (eraseKV kid2 idx) = lookupKV kid idx := by
  unfold lookupKV eraseKV
  rw [find?_filter_ne kid kid2 idx h]

theorem lookupKV_insert_other (kid kid2 fp : Nat) (idx : List (Nat × Nat))
    (h : ¬ kid = kid2) : lookupKV kid (insertKV kid2 fp idx) = lookupKV kid idx := by
  have h2 := lookupKV_erase_other kid kid2 idx h
  unfold lookupKV at h2 ⊢
  unfold insertKV
  rw [List.find?_cons_of_neg _ (by simp; exact fun hh => h hh.symm)]
  exact h2

theorem lookupKV_insert_keep (kid kid2 fp : Nat) (idx : List (Nat × Nat))
    (h : lookupKV kid idx = some fp) :
    lookupKV kid (insertKV kid2 fp idx) = some fp := by
  by_cases hk : kid = kid2
  · subst hk
    exact lookupKV_insert_self kid fp idx
  · rw [lookupKV_insert_other kid kid2 fp idx hk]
    exact h

theorem lookupKV_erase_none (kid kid2 : Nat) (idx : List (Nat × Nat))
    (h : lookupKV kid idx = none) : lookupKV kid (eraseKV kid2 idx) = none := by
  by_cases hk : kid = kid2
  · subst hk
    exact lookupKV_erase_self kid idx
  · rw [lookupKV_erase_other kid kid2 idx hk]
    exact h

theorem indexAdd_keep (tnow fp kid : Nat) :
    ∀ (keys : List KeyInfo) (idx : List (Nat × Nat)),
      lookupKV kid idx = some fp →
      lookupKV kid (indexAdd keys tnow fp idx) = some fp := by
  intro keys
  induction keys with
  | nil => intro idx h; exact h
  | cons k ks ih =>
    intro idx h
    show lookupKV kid (indexAdd ks tnow fp
      (if validAt k tnow then insertKV k.keyid fp idx else idx)) = some fp
    by_cases hv : validAt k tnow
    · rw [if_pos hv]
      exact ih _ (lookupKV_insert_keep kid k.keyid fp idx h)
    · rw [if_neg hv]
      exact ih _ h

theorem indexAdd_mem (tnow fp : Nat) :
    ∀ (keys : List KeyInfo) (idx : List (Nat × Nat)) (k : KeyInfo),
      k ∈ keys → validAt k tnow = true →
      lookupKV k.keyid (indexAdd keys tnow fp idx) = some fp := by
  intro keys
  induction keys with
  | nil => intro idx k hk; exact absurd hk (by simp)
  | cons k0 ks ih =>
    intro idx k hk hv
    rcases List.mem_cons.mp hk with rfl | hmem
    · show lookupKV k.keyid (indexAdd ks tnow fp
        (if validAt k tnow then insertKV k.keyid fp idx else idx)) = some fp
      rw [if_pos hv]
      exact indexAdd_keep tnow fp k.keyid ks _ (lookupKV_insert_self k.keyid fp idx)
    · show lookupKV k.keyid (indexAdd ks tnow fp
        (if validAt k0 tnow then insertKV k0.keyid fp idx else idx)) = some fp
      exact ih _ k hmem hv

theorem indexDrop_keep_none (t kid : Nat) :
    ∀ (keys : List KeyInfo) (idx : List (Nat × Nat)),
      lookupKV kid idx = none →
      lookupKV kid (indexDrop keys t idx) = none := by
  intro keys
  induction keys with
  | nil => intro idx h; exact h
  | cons k ks ih =>
    intro idx h
    show lookupKV kid (indexDrop ks t
      (if validAt k t then eraseKV k.keyid idx else idx)) = none
    by_cases hv : validAt k t
    · rw [if_pos hv]
      exact ih _ (lookupKV_erase_none kid k.keyid idx h)
    · rw [if_neg hv]
      exact ih _ h

theorem indexDrop_mem (t : Nat) :
    ∀ (keys : List KeyInfo) (idx : List (Nat × Nat)) (k : KeyInfo),
      k ∈ keys → validAt k t = true →
      lookupKV k.keyid (indexDrop keys t idx) = none := by
  intro keys
  induction keys with
  | nil => intro idx k hk; exact absurd hk (by simp)
  | cons k0 ks ih =>
    intro idx k hk hv
    rcases List.mem_cons.mp hk with rfl | hmem
    · show lookupKV k.keyid (indexDrop ks t
        (if validAt k t then eraseKV k.keyid idx else idx)) = none
      rw [if_pos hv]
      exact indexDrop_keep_none t k.keyid ks _ (lookupKV_erase_self k.keyid idx)
    · show lookupKV k.keyid (indexDrop ks t
        (if validAt k0 t then eraseKV k0.keyid idx else idx)) = none
      exact ih _ k hmem hv

/-! Lemmas about the certificate set. -/

theorem containsFp_filter_out (certs : List Cert) (fp : Nat) :
    containsFp (certs.filter (fun c => !(c.fingerprint == fp))) fp = false := by
  unfold containsFp
  rw [List.any_eq_false]
  intro c hc
  have h2 := (List.mem_filter.mp hc).2
  simp only [Bool.not_eq_true', beq_eq_false_iff_ne, ne_eq] at h2
  simp [h2]

theorem countFp_zero_of_not_contains (certs : List Cert) (fp : Nat)
    (h : containsFp certs fp = false) : countFp certs fp = 0 := by
  unfold containsFp at h
  rw [List.any_eq_false] at h
  unfold countFp
  rw [List.countP_eq_zero]
  exact h

theorem countFp_append_one (certs : List Cert) (cert : Cert) :
    countFp (certs ++ [cert]) cert.fingerprint =
      countFp certs cert.fingerprint + 1 := by
  unfold countFp
  rw [List.countP_append]
  simp [List.countP_cons]

/-- Claim C4 (amended): remove on a present certificate deletes it from the
set, prunes exactly the index entries of the keys that are valid under the
store's policy at the store's CONSTRUCTION timestamp, and afterwards get
never returns a certificate with the removed fingerprint (the weak
reference no longer upgrades through the store). Entries indexed by add for
keys not valid at the construction timestamp survive — see the
counterexample. -/
theorem c4_remove (m : CertificationManager) (cert : Cert)
    (h : containsFp m.certs cert.fingerprint = true) :
    (m.remove cert).1 = true ∧
    containsFp (m.remove cert).2.certs cert.fingerprint = false ∧
    (∀ k ∈ cert.keys, validAt k m.timestamp = true →
      lookupKV k.keyid (m.remove cert).2.indexs = none) ∧
    (∀ kid c2, (m.remove cert).2.get kid = some c2 →
      c2.fingerprint ≠ cert.fingerprint) := by
  unfold CertificationManager.remove
  rw [if_pos h]
  refine ⟨rfl, containsFp_filter_out m.certs cert.fingerprint, ?_, ?_⟩
  · intro k hk hv
    exact indexDrop_mem m.timestamp cert.keys m.indexs k hk hv
  · intro kid c2 hget
    unfold CertificationManager.get at hget
    cases hl : lookupKV kid (indexDrop cert.keys m.timestamp m.indexs) with
    | none => rw [hl] at hget; exact absurd hget (by simp)
    | some fp =>
      rw [hl] at hget
      have hmem := List.mem_of_find?_eq_some hget
      have h2 := (List.mem_filter.mp hmem).2
      simp only [Bool.not_eq_true', beq_eq_false_iff_ne, ne_eq] at h2
      exact h2

/-- Claim C4 witness: removing a certificate from a store built at the same
time its key was valid prunes the index entry, and get yields nothing. -/
theorem c4_remove_witness :
    ((CertificationManager.new [certStale] 40).remove certStale).1 = true ∧
    lookupKV 5 ((CertificationManager.new [certStale] 40).remove certStale).2.indexs = none := by
  have H := c4_remove (CertificationManager.new [certStale] 40) certStale (by rfl)
  exact ⟨H.1, H.2.2.1 ⟨5, 100, 20, 100, false, true, true, none⟩
    (by decide) (by decide)⟩

/-- Claim C4 counterexample: the store is built (empty) at time 10, the
certificate certStale — whose only key is created at time 20 — is added at
time 30 (so add indexes key-id 5), then removed again: remove evaluates the
key's validity at the construction timestamp 10, finds it not yet alive,
and leaves the index entry behind; the certificate set is empty while the
key-id index still maps key-id 5 to the removed certificate's fingerprint.
The claimed synchronous deletion of all the certificate's index entries
fails. -/
theorem c4_counterexample :
    c4after.certs = [] ∧ lookupKV 5 c4after.indexs = some 1 ∧
    (c4mgr.remove certStale).1 = true :=
  ⟨rfl, rfl, rfl⟩

/-- Claim C5: add is a no-op returning false when the fingerprint is
already present (and then leaves the single entry for that fingerprint
in place); on a fresh fingerprint it returns true, the store then holds
exactly one entry for that fingerprint, and every key of the certificate
that is signing-capable, unrevoked, alive and supported at the call-time
clock is indexed to the certificate. -/
theorem c5_add (m : CertificationManager) (cert : Cert) (now : Nat) :
    (containsFp m.certs cert.fingerprint = true → m.add cert now = (false, m)) ∧
    (countFp m.certs cert.fingerprint = 1 →
      countFp (m.add cert now).2.certs cert.fingerprint = 1) ∧
    (containsFp m.certs cert.fingerprint = false →
      (m.add cert now).1 = true ∧
      countFp (m.add cert now).2.certs cert.fingerprint = 1 ∧
      (∀ k ∈ cert.keys, validAt k now = true →
        lookupKV k.keyid (m.add cert now).2.indexs = some cert.fingerprint)) := by
  by_cases hc : containsFp m.certs cert.fingerprint = true
  · refine ⟨fun _ => ?_, fun h1 => ?_, fun hf => absurd hc (by rw [hf]; simp)⟩
    · unfold CertificationManager.add
      rw [if_pos hc]
    · unfold CertificationManager.add
      rw [if_pos hc]
      exact h1
  · have hcf : containsFp m.certs cert.fingerprint = false := by
      cases hx : containsFp m.certs cert.fingerprint
      · rfl
      · exact absurd hx hc
    have hz := countFp_zero_of_not_contains m.certs cert.fingerprint hcf
    refine ⟨fun ht => absurd ht hc, fun h1 => absurd h1 (by omega), fun _ => ?_⟩
    unfold CertificationManager.add
    rw [if_neg hc]
    refine ⟨rfl, ?_, ?_⟩
    · rw [countFp_append_one, hz]
    · intro k hk hv
      exact indexAdd_mem now cert.fingerprint cert.keys m.indexs k hk hv

/-- Claim C5 witness: adding a fresh certificate at a time its key is valid
returns true and indexes the key; adding it again returns false and leaves
the store unchanged. -/
theorem c5_add_witness :
    ((CertificationManager.new [] 0).add certStale 30).1 = true ∧
    lookupKV 5 ((CertificationManager.new [] 0).add certStale 30).2.indexs = some 1 ∧
    c4mgr.add certStale 99 = (false, c4mgr) := by
  have H := (c5_add (CertificationManager.new [] 0) certStale 30).2.2 (by rfl)
  have H2 := (c5_add c4mgr certStale 99).1 (by rfl)
  exact ⟨H.1, H.2.2 ⟨5, 100, 20, 100, false, true, true, none⟩ (by decide) (by decide), H2⟩

/-- Claim C7: loading a keyring that parses to certificates A, A, B (a
duplicate fingerprint followed by a distinct certificate) keeps each
certificate once, but ends with the dirty flag CLEAR, because the loop
reassigns changed on every iteration and the last certificate inserts
freshly; only when the duplicate is the last file entry does the flag
survive. The spec's promise that a duplicate marks the store dirty fails. -/
theorem c7_duplicate_not_dirty :
    (CertificationManager.new [certA, certA, certB] 0).certs = [certA, certB] ∧
    (CertificationManager.new [certA, certA, certB] 0).changed = false ∧
    (CertificationManager.new [certA, certA] 0).changed = true :=
  ⟨rfl, rfl, rfl⟩

/-! Claim C8: unresolved signers fail the whole get_certs call. -/

theorem get_certs_error_of_unresolved (m : CertificationManager) :
    ∀ ids : List KeyHandle, (∃ h ∈ ids, resolveOne m h = none) →
      get_certs m ids = Except.error VerifyErr.certNotFound := by
  intro ids
  induction ids with
  | nil => intro h; exact absurd h (by simp)
  | cons h0 rest ih =>
    intro ⟨h, hmem, hres⟩
    rcases List.mem_cons.mp hmem with rfl | hmem2
    · unfold get_certs
      rw [hres]
    · unfold get_certs
      cases hres0 : resolveOne m h0 with
      | none => rfl
      | some c =>
        rw [ih ⟨h, hmem2, hres⟩]

theorem unresolved_of_get_certs_error (m : CertificationManager) :
    ∀ ids : List KeyHandle,
      get_certs m ids = Except.error VerifyErr.certNotFound →
      ∃ h ∈ ids, resolveOne m h = none := by
  intro ids
  induction ids with
  | nil => intro h; exact absurd h (by intro h2; exact Except.noConfusion h2)
  | cons h0 rest ih =>
    intro herr
    unfold get_certs at herr
    cases hres0 : resolveOne m h0 with
    | none => exact ⟨h0, by simp, hres0⟩
    | some c =>
      rw [hres0] at herr
      cases hrest : get_certs m rest with
      | ok cs => rw [hrest] at herr; exact absurd herr (by simp)
      | error e =>
        cases e
        obtain ⟨h, hmem, hres⟩ := ih hrest
        exact ⟨h, by simp [hmem], hres⟩

theorem get_certs_ok_of_resolved (m : CertificationManager) :
    ∀ ids : List KeyHandle, (∀ h ∈ ids, resolveOne m h ≠ none) →
      ∃ cs, get_certs m ids = Except.ok cs := by
  intro ids
  induction ids with
  | nil => intro _; exact ⟨[], rfl⟩
  | cons h0 rest ih =>
    intro hall
    cases hres0 : resolveOne m h0 with
    | none => exact absurd hres0 (hall h0 (by simp))
    | some c =>
      obtain ⟨cs, hcs⟩ := ih (fun h hm => hall h (by simp [hm]))
      refine ⟨c :: cs, ?_⟩
      unfold get_certs
      rw [hres0, hcs]

/-- Claim C8: a claimed signer that resolves to no certificate of the trust
store fails the whole get_certs call with the cert-not-found error — even
when every other signer resolves — and when every claimed signer resolves
the call succeeds (no partial trust). -/
theorem c8_cert_not_found (m : CertificationManager) (ids : List KeyHandle) :
    ((∃ h ∈ ids, resolveOne m h = none) ↔
      get_certs m ids = Except.error VerifyErr.certNotFound) ∧
    ((∀ h ∈ ids, resolveOne m h ≠ none) → ∃ cs, get_certs m ids = Except.ok cs) :=
  ⟨⟨get_certs_error_of_unresolved m ids, unresolved_of_get_certs_error m ids⟩,
   get_certs_ok_of_resolved m ids⟩

/-- Claim C8 witness: an envelope claiming an unknown key id fails with
cert-not-found against an empty store. -/
theorem c8_witness :
    get_certs (CertificationManager.new [] 0) [KeyHandle.keyId 5] =
      Except.error VerifyErr.certNotFound :=
  (c8_cert_not_found (CertificationManager.new [] 0) [KeyHandle.keyId 5]).1.mp
    ⟨KeyHandle.keyId 5, by simp, rfl⟩

/-! Claim C6: the signing-key cache. -/

theorem generate_cache_hit (g3 : SigningKeyPairGenerator) (kid : Nat) (kp : KeyPair)
    (h3 : g3.cache = some (kid, kp)) (c3 : Cert) (t3 : Nat) (pw3 : Nat → Nat → Nat) :
    g3.generate c3 kid t3 pw3 = (Except.ok kp, g3, 0) := by
  unfold SigningKeyPairGenerator.generate
  rw [h3]
  simp

/-- Claim C6 (amended): the cache holds a SINGLE entry. A resolution whose
key id matches the cached entry is served from the cache with no
PasswordProvider invocation; a successful resolution leaves its key id and
pair as the cache entry, so the immediately following resolution with the
same key id prompts nothing. A resolution under a different key id
replaces the single slot, so a key id may be prompted for again later in
the same process (see the counterexample). -/
theorem c6_cache (g : SigningKeyPairGenerator) (cert : Cert) (kid t : Nat)
    (pw : Nat → Nat → Nat) :
    (∀ kp, g.cache = some (kid, kp) →
      g.generate cert kid t pw = (Except.ok kp, g, 0)) ∧
    (∀ (kp : KeyPair) (g2 : SigningKeyPairGenerator) (n : Nat) (cert2 : Cert)
        (t2 : Nat) (pw2 : Nat → Nat → Nat),
      g.generate cert kid t pw = (Except.ok kp, g2, n) →
      g2.cache = some (kid, kp) ∧
      g2.generate cert2 kid t2 pw2 = (Except.ok kp, g2, 0)) := by
  constructor
  · intro kp h
    exact generate_cache_hit g kid kp h cert t pw
  · intro kp g2 n cert2 t2 pw2 hgen
    have hcache : g2.cache = some (kid, kp) := by
      unfold SigningKeyPairGenerator.generate at hgen
      split at hgen
      · -- the cache held some (ck, kp0)
        rename_i ck kp0 heq
        split at hgen
        · -- same key id: served from cache
          rename_i hck
          simp only [Prod.mk.injEq, Except.ok.injEq] at hgen
          obtain ⟨h1, h2, _⟩ := hgen
          have hck2 : ck = kid := by simpa using hck
          rw [← h2, heq, hck2, h1]
        · -- other key id: re-resolved
          split at hgen
          · rename_i kp2 pn hgk
            simp only [Prod.mk.injEq, Except.ok.injEq] at hgen
            obtain ⟨h1, h2, _⟩ := hgen
            rw [← h2, h1]
          · rename_i e pn hgk
            simp at hgen
      · -- empty cache: resolved
        split at hgen
        · rename_i kp2 pn hgk
          simp only [Prod.mk.injEq, Except.ok.injEq] at hgen
          obtain ⟨h1, h2, _⟩ := hgen
          rw [← h2, h1]
        · rename_i e pn hgk
          simp at hgen
    exact ⟨hcache, generate_cache_hit g2 kid kp hcache cert2 t2 pw2⟩

/-- Claim C6 witness: a generator whose cache holds key id 1 serves a
repeat resolution for key id 1 from the cache, with zero provider
invocations and an unchanged cache. -/
theorem c6_cache_witness :
    c6g1.generate c6cert1 1 77 c6pw = (Except.ok ⟨1, 201⟩, c6g1, 0) :=
  (c6_cache c6g1 c6cert1 1 77 c6pw).1 ⟨1, 201⟩ (by rfl)

/-- Claim C6 counterexample: resolving key id 1, then key id 2, then key
id 1 again invokes the PasswordProvider on ALL THREE calls — the third
resolution of the once-resolved key id 1 is NOT served from any cache,
because the intervening key id 2 replaced the single cache slot; the
passphrase for key id 1 is prompted twice in one process. -/
theorem c6_counterexample :
    (c6g0.generate c6cert1 1 50 c6pw).2.2 = 1 ∧
    (c6g1.generate c6cert2 2 50 c6pw).2.2 = 1 ∧
    (c6g2.generate c6cert1 1 50 c6pw).2.2 = 1 ∧
    (c6g2.generate c6cert1 1 50 c6pw).1 = Except.ok ⟨1, 201⟩ :=
  ⟨rfl, rfl, rfl, rfl⟩

/-! Claims C9 and C10: shape lemmas for the read_from loop. -/

theorem procKV_shape (cf : Codec F) (st : ReadSt F) (k v : Str) :
    (k = kComment ∧ procKV cf st k v = Except.ok { st with comment := v }) ∨
    (∃ st2, procKV cf st k v = Except.ok st2 ∧ st2.comment = st.comment) ∨
    (∃ f, procKV cf st k v = Except.error (ReadErr.malformed f)) := by
  unfold procKV
  by_cases h1 : k = kUuid
  · rw [if_pos h1]
    cases hp : parseUuid v with
    | some u => exact Or.inr (Or.inl ⟨_, rfl, rfl⟩)
    | none => exact Or.inr (Or.inr ⟨_, rfl⟩)
  · rw [if_neg h1]
    by_cases h2 : k = kTimestamp
    · rw [if_pos h2]
      cases hp : parseU64 v with
      | some t => exact Or.inr (Or.inl ⟨_, rfl, rfl⟩)
      | none => exact Or.inr (Or.inr ⟨_, rfl⟩)
    · rw [if_neg h2]
      by_cases h3 : k = kPlayerUuid
      · rw [if_pos h3]
        cases hp : parseUuid v with
        | some u => exact Or.inr (Or.inl ⟨_, rfl, rfl⟩)
        | none => exact Or.inr (Or.inr ⟨_, rfl⟩)
      · rw [if_neg h3]
        by_cases h4 : k = kPoints
        · rw [if_pos h4]
          cases hp : cf.parse v with
          | some p => exact Or.inr (Or.inl ⟨_, rfl, rfl⟩)
          | none => exact Or.inr (Or.inr ⟨_, rfl⟩)
        · rw [if_neg h4]
          by_cases h5 : k = kComment
          · rw [if_pos h5]
            exact Or.inl ⟨h5, rfl⟩
          · rw [if_neg h5]
            exact Or.inr (Or.inl ⟨st, rfl, rfl⟩)

theorem runLines_comment (cf : Codec F) :
    ∀ (ls : List Str) (st st2 : ReadSt F),
      (∀ l ∈ ls, lineKeyIsComment l = false) →
      runLines cf st ls = Except.ok st2 → st2.comment = st.comment := by
  intro ls
  induction ls with
  | nil =>
    intro st st2 _ h
    injection h with h
    rw [← h]
  | cons l rest ih =>
    intro st st2 hall h
    unfold runLines at h
    cases hp : procLine cf st l with
    | error e => rw [hp] at h; exact Except.noConfusion h
    | ok stm =>
      rw [hp] at h
      have hmid : stm.comment = st.comment := by
        unfold procLine at hp
        cases hsp : splitOnce ':' l with
        | none => rw [hsp] at hp; injection hp with hp; rw [← hp]
        | some kv =>
          rw [hsp] at hp
          have hp2 : procKV cf st (trim kv.1) (trim kv.2) = Except.ok stm := hp
          have hkey : ¬ trim kv.1 = kComment := by
            have hlc := hall l (by simp)
            unfold lineKeyIsComment at hlc
            rw [hsp] at hlc
            simpa using hlc
          rcases procKV_shape cf st (trim kv.1) (trim kv.2) with
            ⟨hk, _⟩ | ⟨st3, h3, hcm⟩ | ⟨f, hf⟩
          · exact absurd hk hkey
          · rw [h3] at hp2
            injection hp2 with hp2
            rw [← hp2]
            exact hcm
          · rw [hf] at hp2
            exact Except.noConfusion hp2
      rw [ih stm st2 (fun l2 hl2 => hall l2 (by simp [hl2])) h, hmid]

theorem runLines_comment_trimfix (cf : Codec F) :
    ∀ (ls : List Str) (st st2 : ReadSt F),
      trim st.comment = st.comment →
      runLines cf st ls = Except.ok st2 → trim st2.comment = st2.comment := by
  intro ls
  induction ls with
  | nil =>
    intro st st2 hst h
    injection h with h
    rw [← h]
    exact hst
  | cons l rest ih =>
    intro st st2 hst h
    unfold runLines at h
    cases hp : procLine cf st l with
    | error e => rw [hp] at h; exact Except.noConfusion h
    | ok stm =>
      rw [hp] at h
      have hmid : trim stm.comment = stm.comment := by
        unfold procLine at hp
        cases hsp : splitOnce ':' l with
        | none =>
          rw [hsp] at hp
          injection hp with hp
          rw [← hp]
          exact hst
        | some kv =>
          rw [hsp] at hp
          have hp2 : procKV cf st (trim kv.1) (trim kv.2) = Except.ok stm := hp
          rcases procKV_shape cf st (trim kv.1) (trim kv.2) with
            ⟨_, hk⟩ | ⟨st3, h3, hcm⟩ | ⟨f, hf⟩
          · rw [hk] at hp2
            injection hp2 with hp2
            rw [← hp2]
            exact trim_idem kv.2
          · rw [h3] at hp2
            injection hp2 with hp2
            rw [← hp2, hcm]
            exact hst
          · rw [hf] at hp2
            exact Except.noConfusion hp2
      exact ih stm st2 hmid h

theorem runLines_no_missing (cf : Codec F) :
    ∀ (ls : List Str) (st : ReadSt F) (f : FieldTag),
      runLines cf st ls ≠ Except.error (ReadErr.missing f) := by
  intro ls
  induction ls with
  | nil => intro st f h; exact Except.noConfusion h
  | cons l rest ih =>
    intro st f h
    unfold runLines at h
    cases hp : procLine cf st l with
    | ok stm => rw [hp] at h; exact ih stm f h
    | error e =>
      rw [hp] at h
      injection h with h
      unfold procLine at hp
      cases hsp : splitOnce ':' l with
      | none => rw [hsp] at hp; exact Except.noConfusion hp
      | some kv =>
        rw [hsp] at hp
        have hp2 : procKV cf st (trim kv.1) (trim kv.2) = Except.error e := hp
        rcases procKV_shape cf st (trim kv.1) (trim kv.2) with
          ⟨_, hk⟩ | ⟨st3, h3, _⟩ | ⟨g, hg⟩
        · rw [hk] at hp2; exact Except.noConfusion hp2
        · rw [h3] at hp2; exact Except.noConfusion hp2
        · rw [hg] at hp2
          injection hp2 with hp2
          rw [← hp2] at h
          exact ReadErr.noConfusion h

theorem read_from_ok_comment (cf : Codec F) (s : Str) (c : SubmitContent F)
    (h : read_from cf s = Except.ok c) :
    ∃ st, runLines cf initSt (linesOf s) = Except.ok st ∧ c.comment = st.comment := by
  unfold read_from at h
  cases hr : runLines cf initSt (linesOf s) with
  | error e => rw [hr] at h; exact Except.noConfusion h
  | ok st =>
    rw [hr] at h
    refine ⟨st, rfl, ?_⟩
    obtain ⟨ou, ot, op, opts, cm⟩ := st
    cases ou with
    | none => exact Except.noConfusion h
    | some u =>
      cases ot with
      | none => exact Except.noConfusion h
      | some t =>
        cases op with
        | none => exact Except.noConfusion h
        | some p =>
          cases opts with
          | none => exact Except.noConfusion h
          | some f0 =>
            injection h with h
            rw [← h]

/-- Claim C9: the comment field is optional. Whenever the line loop
succeeds with all four non-comment fields populated (they appeared with
parseable values) and no line carries the comment field name, decoding
succeeds and the comment is the empty string; and a missing-field error is
never raised for the comment field — only uuid, timestamp, player_uuid or
points can be reported missing. -/
theorem c9_comment_optional :
    (∀ (F : Type) (cf : Codec F) (s : Str) (st : ReadSt F),
      runLines cf initSt (linesOf s) = Except.ok st →
      st.tmp_uuid.isSome = true → st.tmp_timestamp.isSome = true →
      st.tmp_player_uuid.isSome = true → st.tmp_points.isSome = true →
      (∀ l ∈ linesOf s, lineKeyIsComment l = false) →
      ∃ c, read_from cf s = Except.ok c ∧ c.comment = []) ∧
    (∀ (F : Type) (cf : Codec F) (s : Str) (f : FieldTag),
      read_from cf s = Except.error (ReadErr.missing f) → f ≠ FieldTag.comment) := by
  constructor
  · intro F0 cf s st hrun hu ht hp hf hnc
    have hcm : st.comment = [] :=
      runLines_comment cf (linesOf s) initSt st hnc hrun
    obtain ⟨ou, ot, op, opts, cm⟩ := st
    cases ou with
    | none => exact Bool.noConfusion hu
    | some u =>
      cases ot with
      | none => exact Bool.noConfusion ht
      | some t =>
        cases op with
        | none => exact Bool.noConfusion hp
        | some p =>
          cases opts with
          | none => exact Bool.noConfusion hf
          | some f0 =>
            refine ⟨⟨u, t, p, f0, cm⟩, ?_, hcm⟩
            unfold read_from
            rw [hrun]
  · intro F0 cf s f h hfc
    subst hfc
    unfold read_from at h
    cases hr : runLines cf initSt (linesOf s) with
    | error e =>
      rw [hr] at h
      injection h with h
      rw [h] at hr
      exact runLines_no_missing cf (linesOf s) initSt FieldTag.comment hr
    | ok st =>
      rw [hr] at h
      obtain ⟨ou, ot, op, opts, cm⟩ := st
      cases ou with
      | none =>
        injection h with h
        injection h with h
        exact FieldTag.noConfusion h
      | some u =>
        cases ot with
        | none =>
          injection h with h
          injection h with h
          exact FieldTag.noConfusion h
        | some t =>
          cases op with
          | none =>
            injection h with h
            injection h with h
            exact FieldTag.noConfusion h
          | some p =>
            cases opts with
            | none =>
              injection h with h
              injection h with h
              exact FieldTag.noConfusion h
            | some f0 => exact Except.noConfusion h

/-- Claim C9 witness: a four-line body with no comment line decodes
successfully with an empty comment. -/
theorem c9_witness : ∃ c, read_from natCodec c9inp = Except.ok c ∧ c.comment = [] :=
  c9_comment_optional.1 Nat natCodec c9inp ⟨some 1, some 1000, some 2, some 5, []⟩
    (by rfl) rfl rfl rfl rfl (by decide)

/-- Claim C10: decode trims whitespace around both the field name and the
field value of every line — a line padded with whitespace around its name
and value behaves exactly as the unpadded line — and a decoded comment
(the one string field a record keeps) never carries leading or trailing
whitespace. -/
theorem c10_trims :
    (∀ (F : Type) (cf : Codec F) (st : ReadSt F) (k v w1 w2 w3 w4 : Str),
      (∀ c ∈ w1, isWsp c = true) → (∀ c ∈ w2, isWsp c = true) →
      (∀ c ∈ w3, isWsp c = true) → (∀ c ∈ w4, isWsp c = true) →
      ':' ∉ k → trim k = k → trim v = v →
      procLine cf st (w1 ++ k ++ w2 ++ ':' :: (w3 ++ v ++ w4)) =
        procLine cf st (k ++ ':' :: v)) ∧
    (∀ (F : Type) (cf : Codec F) (s : Str) (c : SubmitContent F),
      read_from cf s = Except.ok c → trim c.comment = c.comment) := by
  constructor
  · intro F0 cf st k v w1 w2 w3 w4 hw1 hw2 hw3 hw4 hk htk htv
    have hcol : ':' ∉ (w1 ++ k) ++ w2 := by
      intro hm
      rcases List.mem_append.mp hm with hm1 | hm2
      · rcases List.mem_append.mp hm1 with hm3 | hm4
        · exact absurd (hw1 ':' hm3) (by decide)
        · exact hk hm4
      · exact absurd (hw2 ':' hm2) (by decide)
    rw [procLine_split cf st ((w1 ++ k) ++ w2) ((w3 ++ v) ++ w4) hcol,
      procLine_split cf st k v hk]
    have e1 : trim ((w1 ++ k) ++ w2) = k := by
      rw [List.append_assoc, trim_pad w1 w2 k hw1 hw2, htk]
    have e2 : trim ((w3 ++ v) ++ w4) = v := by
      rw [List.append_assoc, trim_pad w3 w4 v hw3 hw4, htv]
    rw [e1, e2, htk, htv]
  · intro F0 cf s c h
    obtain ⟨st, hrun, hcm⟩ := read_from_ok_comment cf s c h
    rw [hcm]
    exact runLines_comment_trimfix cf (linesOf s) initSt st (by rfl) hrun

/-- Claim C10 witness: a comment line padded with spaces around its name
and value is processed exactly like the clean line. -/
theorem c10_witness :
    procLine natCodec initSt (([' '] : Str) ++ kComment ++ ([] : Str) ++ ':' ::
      (([' ', ' '] : Str) ++ (['x'] : Str) ++ ([' '] : Str))) =
      procLine natCodec initSt (kComment ++ ':' :: (['x'] : Str)) :=
  c10_trims.1 Nat natCodec initSt kComment ['x'] [' '] [] [' ', ' '] [' ']
    (by decide) (by decide) (by decide) (by decide) (by decide) (by rfl) (by rfl)

end OpenMPRDB
